import Mathlib

/-!
Shallow embedding of the QGIS-GeoJSON → DJI Pilot 2 waypoints converter
(`src/app.py`) and verification of its specification claims.

The program rewrites a DJI "seed" KMZ archive: it extracts (lon, lat, alt)
points from a GeoJSON file, removes every `<Placemark>` (with a `<Point>`
child) from the `waylines.wpml` document and from the optional
`template.kml` document, regenerates one placemark per point, and writes a
new archive in which all other entries are copied byte-for-byte.

XML trees are modelled as a nested inductive (`Elem`); Python floats are
modelled as rationals; Python's `f"{x:.Nf}"` fixed-point formatting is
modelled by decimal rendering after round-half-even scaling; the zip
archive is a list of (name, bytes) entries.
-/

namespace QgisDji

/-- The KML namespace URI (`KML_NS` in `src/app.py`). -/
def kmlNS : String := "http://www.opengis.net/kml/2.2"

/-- The DJI WPML namespace URI (`WPML_NS` in `src/app.py`). -/
def wpmlNS : String := "http://www.dji.com/wpml/1.0.2"

/-- ElementTree's fully-qualified tag for a KML-namespace local name,
    as written in the source: `"{" + KML_NS["kml"] + "}" + local`. -/
def kTag (localName : String) : String := "\x7b" ++ kmlNS ++ "\x7d" ++ localName

/-- Fully-qualified tag in the WPML namespace. -/
def wTag (localName : String) : String := "\x7b" ++ wpmlNS ++ "\x7d" ++ localName

/-- An XML element: tag, optional text, ordered children
    (the in-memory form `xml.etree.ElementTree` gives the program). -/
inductive Elem : Type where
  | mk (tag : String) (text : Option String) (children : List Elem)

def Elem.tag : Elem → String
  | .mk t _ _ => t

def Elem.text : Elem → Option String
  | .mk _ x _ => x

def Elem.children : Elem → List Elem
  | .mk _ _ cs => cs

/-- A waypoint-shaped record: ElementTree pattern
    `.//kml:Placemark[kml:Point]` — a `Placemark` element having a direct
    `Point` child (`src/app.py` line 165). -/
def isWpt (e : Elem) : Bool :=
  e.tag == kTag "Placemark" && e.children.any (fun c => c.tag == kTag "Point")

mutual

/-- All waypoint-shaped records in an element's subtree, the element
    itself included, in document (preorder) order. -/
def wptIn (e : Elem) : List Elem :=
  match e with
  | .mk t x cs => (if isWpt (.mk t x cs) then [Elem.mk t x cs] else []) ++ wptInList cs

/-- All waypoint-shaped records under a list of sibling subtrees. -/
def wptInList (l : List Elem) : List Elem :=
  match l with
  | [] => []
  | c :: cs => wptIn c ++ wptInList cs

end

/-- `root.findall(".//kml:Placemark[kml:Point]", KML_NS)`: every
    waypoint-shaped record that is a proper descendant of the root, in
    document order (`src/app.py` line 165). -/
def placemarksOf (e : Elem) : List Elem := wptInList e.children

mutual

/-- Net effect of the placemark-removal loop (`src/app.py` lines 199-209):
    every waypoint-shaped record found by the initial `findall` is removed
    from its parent; records nested inside an already-removed record
    disappear with it.  Equivalently: filter waypoint-shaped children out
    at every level of the tree. -/
def stripWpt (e : Elem) : Elem :=
  match e with
  | .mk t x cs => .mk t x (stripList cs)

def stripList (l : List Elem) : List Elem :=
  match l with
  | [] => []
  | c :: cs => if isWpt c then stripList cs else stripWpt c :: stripList cs

end

/-- `ET.SubElement` appends: add new children at the end of an element's
    child list. -/
def appendChildren (e : Elem) (ns : List Elem) : Elem :=
  match e with
  | .mk t x cs => .mk t x (cs ++ ns)

mutual

/-- Rebuild a tree by appending `ns` to the children of the first proper
    descendant (preorder) satisfying `p`; `none` when no descendant
    matches. -/
def appendAt (p : Elem → Bool) (ns : List Elem) (e : Elem) : Option Elem :=
  match e with
  | .mk t x cs =>
    match appendAtList p ns cs with
    | some cs' => some (.mk t x cs')
    | none => none

def appendAtList (p : Elem → Bool) (ns : List Elem) (l : List Elem) :
    Option (List Elem) :=
  match l with
  | [] => none
  | c :: cs =>
    if p c then some (appendChildren c ns :: cs)
    else
      match appendAt p ns c with
      | some c' => some (c' :: cs)
      | none =>
        match appendAtList p ns cs with
        | some cs' => some (c :: cs')
        | none => none

end

mutual

/-- `root.find(".//" ...)`: first proper descendant (preorder) satisfying
    `p`. -/
def findDesc (p : Elem → Bool) (e : Elem) : Option Elem :=
  match e with
  | .mk _ _ cs => findDescList p cs

def findDescList (p : Elem → Bool) (l : List Elem) : Option Elem :=
  match l with
  | [] => none
  | c :: cs =>
    if p c then some c
    else
      match findDesc p c with
      | some d => some d
      | none => findDescList p cs

end

/-- Namespaced `Document` tag test. -/
def isKmlDoc (e : Elem) : Bool := e.tag == kTag "Document"

/-- Un-namespaced `Document` tag test (the `root.find(".//Document", None)`
    fallback). -/
def isPlainDoc (e : Elem) : Bool := e.tag == "Document"

/-- The document-element lookup of `src/app.py` lines 180-191 and 284-289:
    first a namespaced `Document` descendant, then the root itself, then an
    un-namespaced `Document` descendant. -/
def locateDocument (e : Elem) : Option Elem :=
  match findDesc isKmlDoc e with
  | some d => some d
  | none => if isKmlDoc e then some e else findDesc isPlainDoc e

/-! ### Numeric formatting

Python's `f"{x:.Nf}"` renders a float as a fixed-point decimal with `N`
fraction digits, rounding half to even.  Floats are modelled as rationals,
so the format is: scale by `10^N`, round half to even, render the integer
in decimal with the point re-inserted. -/

/-- Decimal digits of a natural number, little-endian, by fuelled
    recursion (kernel-reducible). -/
def decDigitsAux : Nat → Nat → List Nat
  | 0, _ => []
  | _ + 1, 0 => []
  | fuel + 1, n + 1 => (n + 1) % 10 :: decDigitsAux fuel ((n + 1) / 10)

/-- Decimal digits of a natural number, little-endian. -/
def decDigits (n : Nat) : List Nat := decDigitsAux n n

/-- Round half to even, as Python's float formatting does. -/
def pyRound (q : ℚ) : ℤ :=
  let f := ⌊q⌋
  let r := q - f
  if r < 1 / 2 then f
  else if 1 / 2 < r then f + 1
  else if f % 2 = 0 then f else f + 1

/-- Decimal rendering of a natural number (Python prints `0` as `"0"`). -/
def natDecChars (n : Nat) : List Char :=
  if n = 0 then ['0'] else (decDigits n).reverse.map Nat.digitChar

/-- Fixed-point rendering of an already-scaled integer `n` with `prec`
    fraction digits: sign, integer part, `'.'`, zero-padded fraction. -/
def fmtScaled (prec : Nat) (n : ℤ) : List Char :=
  let m := n.natAbs
  let ip := m / 10 ^ prec
  let fp := m % 10 ^ prec
  let fpDigits := (decDigits fp).reverse.map Nat.digitChar
  (if n < 0 then ['-'] else []) ++
    natDecChars ip ++ '.' :: (List.replicate (prec - fpDigits.length) '0' ++ fpDigits)

/-- Python's `f"{q:.prec f}"` over the rational model. -/
def pyFmt (prec : Nat) (q : ℚ) : String := ⟨fmtScaled prec (pyRound (q * 10 ^ prec))⟩

/-! ### Decimal re-extraction (the spec's round-trip observer) -/

/-- Value of a decimal digit character. -/
def decDigitVal (c : Char) : Option Nat :=
  if c.isDigit then some (c.toNat - 48) else none

/-- Value of a big-endian decimal digit string; `none` when a character is
    not a digit. -/
def digitsVal (l : List Char) : Option Nat :=
  l.foldlM (fun a c => (decDigitVal c).map (fun d => a * 10 + d)) 0

/-- Split a character list on a separator character. -/
def splitOnChar (c : Char) : List Char → List (List Char)
  | [] => [[]]
  | a :: rest =>
    let r := splitOnChar c rest
    if a = c then [] :: r
    else
      match r with
      | h :: t => (a :: h) :: t
      | [] => [[a]]

/-- Parse an unsigned decimal numeral, optionally with a fraction part. -/
def parsePosChars (l : List Char) : Option ℚ :=
  match splitOnChar '.' l with
  | [ip] =>
    if ip.isEmpty then none else (digitsVal ip).map (fun n => (n : ℚ))
  | [ip, fp] =>
    if ip.isEmpty || fp.isEmpty then none
    else do
      let n ← digitsVal ip
      let f ← digitsVal fp
      pure ((n : ℚ) + (f : ℚ) / 10 ^ fp.length)
  | _ => none

/-- Parse a signed decimal numeral. -/
def parseDecChars (l : List Char) : Option ℚ :=
  if l.head? = some '-' then (parsePosChars l.tail).map (fun q => -q)
  else parsePosChars l

/-- Re-extract `(lon, lat, alt)` from a coordinate string of the form
    `"lon,lat,alt"`. -/
def parseCoords (s : String) : Option (ℚ × ℚ × ℚ) :=
  match splitOnChar ',' s.data with
  | [a, b, c] => do
    let lon ← parseDecChars a
    let lat ← parseDecChars b
    let alt ← parseDecChars c
    pure (lon, lat, alt)
  | _ => none

/-- Python's `str.endswith(post)`: suffix test on the character sequence.
    (Lean's own `String.endsWith` is byte-position based and is not used in
    this embedding.) -/
def pyEndsWith (s post : String) : Bool :=
  (s.data.drop (s.data.length - post.data.length)) == post.data

/-- Python's `str.lower()` on the character sequence (the geometry type
    tags compared in the source are ASCII). -/
def pyLower (s : String) : String := ⟨s.data.map Char.toLower⟩

/-! ### Point extraction (`points_from_geojson`, `src/app.py` lines 15-41) -/

/-- One waypoint: `(longitude, latitude, altitude)` as produced by
    `points_from_geojson`. -/
structure Point where
  lon : ℚ
  lat : ℚ
  alt : ℚ

/-- One GeoJSON feature as the program reads it: the geometry `type` tag,
    the geometry `coordinates` array, and the value of the optional
    `properties["alt_m"]` altitude property (`none` when either the
    `properties` object or the `alt_m` key is absent — `f.get("properties",
    {}).get("alt_m", 30)` treats both alike). -/
structure Feature where
  geomType : String
  coords : List ℚ
  altProp : Option ℚ

/-- A GeoJSON document: its `features` array. -/
structure GeoJson where
  features : List Feature

/-- Altitude choice for one feature (`src/app.py` lines 33-37): the
    override when supplied, else the `alt_m` property, else `30`. -/
def featureAlt (f : Feature) (altitudeOverride : Option ℚ) : ℚ :=
  match altitudeOverride with
  | some v => v
  | none => f.altProp.getD 30

/-- The extraction loop of `points_from_geojson`: keep features whose
    geometry type lower-cases to `"point"`, unpack `coordinates[:2]` into
    `(lon, lat)` (fewer than two coordinates raises, aborting the run),
    and attach the chosen altitude. -/
def pointsFromFeatures (fs : List Feature) (altitudeOverride : Option ℚ) :
    Except String (List Point) :=
  match fs with
  | [] => .ok []
  | f :: rest =>
    if pyLower f.geomType == "point" then
      match f.coords with
      | lon :: lat :: _ =>
        (pointsFromFeatures rest altitudeOverride).map
          (fun pts => ⟨lon, lat, featureAlt f altitudeOverride⟩ :: pts)
      | _ => .error "cannot unpack coordinates"
    else pointsFromFeatures rest altitudeOverride

/-- `points_from_geojson(file, altitude_override)`. -/
def points_from_geojson (gj : GeoJson) (altitudeOverride : Option ℚ) :
    Except String (List Point) :=
  pointsFromFeatures gj.features altitudeOverride

/-! ### Waylines rewrite (`src/app.py` lines 159-233) -/

/-- The `<coordinates>` element written for a new placemark, with text
    `f"{lon:.7f},{lat:.7f},{alt:.2f}"` (line 223). -/
def coordText3 (p : Point) : String :=
  pyFmt 7 p.lon ++ "," ++ pyFmt 7 p.lat ++ "," ++ pyFmt 2 p.alt

/-- The `<coordinates>` child of a freshly created placemark. -/
def coordsElem (p : Point) : Elem := .mk (kTag "coordinates") (some (coordText3 p)) []

/-- The `<Point>` child of a freshly created placemark. -/
def pointElem (p : Point) : Elem := .mk (kTag "Point") none [coordsElem p]

/-- The template children cloned into every new waylines placemark: all
    children of the template record whose tag does not end in `"Point"`
    (lines 226-229); deep copy is value copy here. -/
def waylineCloneChildren (template : Option Elem) : List Elem :=
  match template with
  | some t => t.children.filter (fun c => !pyEndsWith c.tag "Point")
  | none => []

/-- A new waylines placemark for point `p` (lines 214-231): a `Placemark`
    holding a `Point`/`coordinates` pair followed by the cloned template
    children. -/
def mkWaylinePm (template : Option Elem) (p : Point) : Elem :=
  .mk (kTag "Placemark") none (pointElem p :: waylineCloneChildren template)

/-- The full `waylines.wpml` rewrite (lines 165-233): collect existing
    waypoint placemarks, reject fewer than 2 points, remember
    `placemarks[0]` as the template, remove every waypoint placemark, and
    append one new placemark per point to the document element.  The
    document element is located as in lines 180-191; when no document
    element exists the run aborts with the `ValueError` of line 191.
    (The source locates the document before the removal pass; the two
    coincide for every tree whose document element is not itself inside a
    removed placemark, and when the located document was removed the
    source's appends land on a detached node, which is the `none` fallback
    returning the stripped tree.) -/
def buildWaylines (root : Elem) (points : List Point) : Except String Elem :=
  if points.length < 2 then
    .error "Need at least 2 points in the GeoJSON file to create a valid waypoint mission."
  else
    let template := (placemarksOf root).head?
    let stripped := stripWpt root
    let ns := points.map (mkWaylinePm template)
    match appendAt isKmlDoc ns stripped with
    | some out => .ok out
    | none =>
      if isKmlDoc stripped then .ok (appendChildren stripped ns)
      else
        match appendAt isPlainDoc ns stripped with
        | some out => .ok out
        | none => .error "Invalid KML structure: missing Document element"

/-! ### template.kml rewrite (`src/app.py` lines 262-313) -/

/-- The `<name>` child written for template-dialect placemark `i`
    (`f"Waypoint {i+1}"`, line 298). -/
def nameElem (i : Nat) : Elem :=
  .mk (kTag "name") (some ("Waypoint " ++ toString (i + 1))) []

/-- The style children cloned from `template_placemarks[0]` (lines
    307-311): children whose tag ends in `"Style"` or `"styleUrl"`. -/
def templateCloneChildren (tpl : Option Elem) : List Elem :=
  match tpl with
  | some t => t.children.filter (fun c => pyEndsWith c.tag "Style" || pyEndsWith c.tag "styleUrl")
  | none => []

/-- A new template-dialect placemark for index `i` and point `p` (lines
    293-311): name, point, then cloned styles. -/
def mkTemplatePm (tpl : Option Elem) (i : Nat) (p : Point) : Elem :=
  .mk (kTag "Placemark") none (nameElem i :: pointElem p :: templateCloneChildren tpl)

/-- The full `template.kml` rewrite (lines 269-313): remove every waypoint
    placemark; if a document element is found (same three-stage lookup),
    append one new placemark per enumerated point; otherwise leave the
    stripped tree as is — no error is raised in this branch. -/
def buildTemplate (root : Elem) (points : List Point) : Elem :=
  let tpl := (placemarksOf root).head?
  let stripped := stripWpt root
  let ns := points.enum.map (fun ip => mkTemplatePm tpl ip.1 ip.2)
  match appendAt isKmlDoc ns stripped with
  | some out => out
  | none =>
    if isKmlDoc stripped then appendChildren stripped ns
    else
      match appendAt isPlainDoc ns stripped with
      | some out => out
      | none => stripped

/-! ### Output archive (`src/app.py` lines 316-331) -/

/-- One zip entry: name and content bytes. -/
structure ZipEntry where
  name : String
  content : List Nat

/-- One iteration of the output-writing loop (`src/app.py` lines 318-331):
    write the re-serialized waylines bytes under the waylines name, the
    re-serialized template bytes under the template name (only when a
    template document was parsed), and the original bytes otherwise. -/
def writeEntry (wpmlName : String) (kmlName : Option String)
    (wpmlBytes : List Nat) (templateBytes : Option (List Nat))
    (e : ZipEntry) : ZipEntry :=
  if e.name = wpmlName then { e with content := wpmlBytes }
  else
    match kmlName, templateBytes with
    | some k, some tb => if e.name = k then { e with content := tb } else e
    | some _, none => e
    | none, _ => e

/-- The output-writing loop over every entry of the seed archive. -/
def writeOutput (entries : List ZipEntry) (wpmlName : String)
    (kmlName : Option String) (wpmlBytes : List Nat)
    (templateBytes : Option (List Nat)) : List ZipEntry :=
  entries.map (writeEntry wpmlName kmlName wpmlBytes templateBytes)

/-! ### Spec-side record observers -/

/-- Coordinate text of a waypoint record: text of the `coordinates` child
    of its `Point` child. -/
def coordTextOf (pm : Elem) : Option String :=
  match pm.children.find? (fun c => c.tag == kTag "Point") with
  | some pt =>
    match pt.children.find? (fun c => c.tag == kTag "coordinates") with
    | some co => co.text
    | none => none
  | none => none

/-- Text of a record's first child with the given tag (used to observe the
    WPML `index` and `executeHeight` fields). -/
def childTextByTag (tag : String) (pm : Elem) : Option String :=
  match pm.children.find? (fun c => c.tag == tag) with
  | some c => c.text
  | none => none

/-! ### Concrete sample inputs (for witnesses and counterexamples) -/

/-- A `Point`/`coordinates` pair as found in a seed mission document. -/
def seedPointChild : Elem :=
  .mk (kTag "Point") none [.mk (kTag "coordinates") (some "0.0,0.0,5.0") []]

/-- First waypoint record of the sample seed waylines document: carries a
    WPML `index` field `"0"` and a WPML `executeHeight` field `"99.00"`. -/
def seedPm1 : Elem :=
  .mk (kTag "Placemark") none
    [seedPointChild, .mk (wTag "index") (some "0") [],
     .mk (wTag "executeHeight") (some "99.00") []]

/-- Second (last) waypoint record of the sample seed waylines document:
    structurally distinct from the first (carries `useGlobalHeight`). -/
def seedPm2 : Elem :=
  .mk (kTag "Placemark") none
    [seedPointChild, .mk (wTag "useGlobalHeight") (some "1") []]

/-- A sample seed waylines document: a `Document` holding mission config
    and two waypoint records. -/
def sampleRoot : Elem :=
  .mk (kTag "kml") none
    [.mk (kTag "Document") none
      [.mk (kTag "missionConfig") none [], seedPm1, seedPm2]]

/-- A seed document whose route folder has zero waypoint records. -/
def noPmRoot : Elem :=
  .mk (kTag "kml") none
    [.mk (kTag "Document") none [.mk (kTag "name") (some "mission") []]]

/-- A visual-template document with a waypoint record but no `Document`
    element anywhere (neither namespaced, nor as root, nor plain). -/
def noDocRoot : Elem :=
  .mk (kTag "Folder") none
    [.mk (kTag "Placemark") none
      [.mk (kTag "Point") none [.mk (kTag "coordinates") (some "1,2,3") []]]]

/-- Two sample target points. -/
def samplePoints : List Point := [⟨10, 20, 30⟩, ⟨11, 21, 31⟩]

/-- Target points exercising the decimal formatting. -/
def cexPoints : List Point := [⟨10.1234567, 20.7654321, 45.5⟩, ⟨10.2, 20.8, 30⟩]

/-- The point-extraction scenario input: one point feature with `alt_m`
    45.5, one point feature without properties. -/
def scenarioGeoJson : GeoJson :=
  ⟨[⟨"Point", [10.1234567, 20.7654321], some 45.5⟩,
    ⟨"Point", [10.2, 20.8], none⟩]⟩

/-- A mixed GeoJSON with a non-point geometry. -/
def mixedGeoJson : GeoJson :=
  ⟨[⟨"LineString", [1, 2], none⟩, ⟨"Point", [3, 4], some 9⟩,
    ⟨"Point", [5, 6], none⟩]⟩

/-- Exactly 1000 target points (the claimed supported maximum). -/
def pts1000 : List Point := List.replicate 1000 ⟨1, 2, 3⟩

/-- 1001 target points (just above the claimed supported maximum). -/
def pts1001 : List Point := List.replicate 1001 ⟨1, 2, 3⟩

/-- A sample seed archive: mission documents plus auxiliary entries. -/
def sampleEntries : List ZipEntry :=
  [⟨"wpmz/waylines.wpml", [1, 2, 3]⟩, ⟨"wpmz/template.kml", [4, 5]⟩,
   ⟨"wpmz/res/photo.jpg", [7, 8, 9]⟩, ⟨"wpmz/.config", [10]⟩]

/-! ### Structural lemmas about the tree operations -/

theorem elem_ind (P : Elem → Prop)
    (h : ∀ t x cs, (∀ c ∈ cs, P c) → P (Elem.mk t x cs)) : ∀ e, P e := by
  intro e
  refine @Elem.rec P (fun l => ∀ c ∈ l, P c) (fun t x cs ih => h t x cs ih) ?_ ?_ e
  · intro c hc
    exact absurd hc (List.not_mem_nil c)
  · intro head tail hh ht c hc
    rcases List.mem_cons.mp hc with rfl | hm
    · exact hh
    · exact ht c hm

theorem tag_mk (t : String) (x : Option String) (cs : List Elem) :
    (Elem.mk t x cs).tag = t := rfl

theorem children_mk (t : String) (x : Option String) (cs : List Elem) :
    (Elem.mk t x cs).children = cs := rfl

theorem stripWpt_mk (t : String) (x : Option String) (cs : List Elem) :
    stripWpt (.mk t x cs) = .mk t x (stripList cs) := by rw [stripWpt]

theorem stripWpt_tag (e : Elem) : (stripWpt e).tag = e.tag := by
  cases e with
  | mk t x cs => rfl

theorem appendChildren_def (t : String) (x : Option String) (cs ns : List Elem) :
    appendChildren (.mk t x cs) ns = .mk t x (cs ++ ns) := rfl

theorem wptIn_def (t : String) (x : Option String) (cs : List Elem) :
    wptIn (.mk t x cs) =
      (if isWpt (.mk t x cs) then [Elem.mk t x cs] else []) ++ wptInList cs := by
  rw [wptIn]

theorem wptInList_nil : wptInList [] = [] := by rw [wptInList]

theorem wptInList_cons (c : Elem) (cs : List Elem) :
    wptInList (c :: cs) = wptIn c ++ wptInList cs := by rw [wptInList]

theorem wptInList_append (a b : List Elem) :
    wptInList (a ++ b) = wptInList a ++ wptInList b := by
  induction a with
  | nil => simp [wptInList_nil]
  | cons c cs ih => simp [wptInList_cons, ih]

theorem wptIn_eq_nil_iff (e : Elem) :
    wptIn e = [] ↔ isWpt e = false ∧ wptInList e.children = [] := by
  cases e with
  | mk t x cs =>
    rw [wptIn_def]
    constructor
    · intro h
      rcases List.append_eq_nil.mp h with ⟨h1, h2⟩
      refine ⟨?_, h2⟩
      by_contra hne
      rw [Bool.not_eq_false] at hne
      rw [hne] at h1
      simp at h1
    · intro ⟨h1, h2⟩
      rw [h1]
      simpa using h2

theorem isWpt_tag (e : Elem) (h : isWpt e = true) : e.tag = kTag "Placemark" := by
  unfold isWpt at h
  exact eq_of_beq (Bool.and_elim_left h)

theorem kTag_placemark_ne_point : (kTag "Placemark" == kTag "Point") = false := by decide

theorem stripList_any_point (cs : List Elem) :
    ((stripList cs).any fun c => c.tag == kTag "Point") =
      (cs.any fun c => c.tag == kTag "Point") := by
  induction cs with
  | nil => rfl
  | cons c rest ih =>
    rw [stripList]
    by_cases hc : isWpt c
    · rw [if_pos hc, List.any_cons]
      have hct : (c.tag == kTag "Point") = false := by
        rw [isWpt_tag c hc]
        exact kTag_placemark_ne_point
      rw [ih, hct, Bool.false_or]
    · rw [if_neg hc, List.any_cons, List.any_cons, stripWpt_tag, ih]

theorem isWpt_stripWpt (e : Elem) : isWpt (stripWpt e) = isWpt e := by
  cases e with
  | mk t x cs =>
    rw [stripWpt_mk]
    unfold isWpt
    rw [tag_mk, tag_mk, children_mk, children_mk, stripList_any_point]

theorem stripList_wptInList (l : List Elem)
    (H : ∀ c ∈ l, wptInList (stripList c.children) = []) :
    wptInList (stripList l) = [] := by
  induction l with
  | nil => simp [stripList, wptInList_nil]
  | cons c cs ih =>
    rw [stripList]
    by_cases hc : isWpt c
    · rw [if_pos hc]
      exact ih (fun d hd => H d (List.mem_cons_of_mem c hd))
    · rw [if_neg hc, wptInList_cons]
      have h1 : wptIn (stripWpt c) = [] := by
        cases c with
        | mk t x cs' =>
          show wptIn (.mk t x (stripList cs')) = []
          rw [wptIn_def]
          have : isWpt (Elem.mk t x (stripList cs')) = false := by
            have := isWpt_stripWpt (.mk t x cs')
            rw [show stripWpt (Elem.mk t x cs') = .mk t x (stripList cs') from rfl] at this
            rw [this]
            exact Bool.not_eq_true _ |>.mp hc
          rw [this]
          simpa using H _ (List.mem_cons_self _ _)
      rw [h1, List.nil_append]
      exact ih (fun d hd => H d (List.mem_cons_of_mem c hd))

theorem strip_children_no_wpt : ∀ e : Elem, wptInList (stripList e.children) = [] := by
  refine elem_ind _ (fun t x cs ih => ?_)
  exact stripList_wptInList cs ih

theorem placemarksOf_stripWpt (e : Elem) : placemarksOf (stripWpt e) = [] := by
  cases e with
  | mk t x cs => exact strip_children_no_wpt (.mk t x cs)

theorem appendAt_mk (p : Elem → Bool) (ns : List Elem) (t : String)
    (x : Option String) (cs : List Elem) :
    appendAt p ns (.mk t x cs) =
      match appendAtList p ns cs with
      | some cs' => some (.mk t x cs')
      | none => none := by
  rw [appendAt]

theorem appendAtList_nil (p : Elem → Bool) (ns : List Elem) :
    appendAtList p ns [] = none := by rw [appendAtList]

theorem appendAtList_cons (p : Elem → Bool) (ns : List Elem) (c : Elem)
    (cs : List Elem) :
    appendAtList p ns (c :: cs) =
      if p c then some (appendChildren c ns :: cs)
      else
        match appendAt p ns c with
        | some c' => some (c' :: cs)
        | none =>
          match appendAtList p ns cs with
          | some cs' => some (c :: cs')
          | none => none := by
  rw [appendAtList]

theorem appendAt_tag (p : Elem → Bool) (ns : List Elem) (c c' : Elem)
    (h : appendAt p ns c = some c') : c'.tag = c.tag := by
  cases c with
  | mk t x cs =>
    rw [appendAt_mk] at h
    cases hl : appendAtList p ns cs with
    | none => rw [hl] at h; exact Option.noConfusion h
    | some cs' =>
      rw [hl] at h
      cases h
      rfl

theorem appendChildren_tag (c : Elem) (ns : List Elem) :
    (appendChildren c ns).tag = c.tag := by
  cases c with
  | mk t x cs => rfl

theorem appendAtList_tags (p : Elem → Bool) (ns : List Elem) :
    ∀ (l l' : List Elem), appendAtList p ns l = some l' →
      l'.map Elem.tag = l.map Elem.tag := by
  intro l
  induction l with
  | nil => intro l' h; rw [appendAtList_nil] at h; exact Option.noConfusion h
  | cons c cs ih =>
    intro l' h
    rw [appendAtList_cons] at h
    by_cases hp : p c
    · rw [if_pos hp] at h
      cases h
      simp [appendChildren_tag]
    · rw [if_neg hp] at h
      cases hc : appendAt p ns c with
      | some c' =>
        rw [hc] at h
        cases h
        simp [appendAt_tag p ns c c' hc]
      | none =>
        rw [hc] at h
        cases hcs : appendAtList p ns cs with
        | some cs' =>
          rw [hcs] at h
          cases h
          simp [ih cs' hcs]
        | none => rw [hcs] at h; exact Option.noConfusion h

theorem any_point_of_tags_eq (a b : List Elem)
    (h : a.map Elem.tag = b.map Elem.tag) :
    (a.any fun c => c.tag == kTag "Point") = (b.any fun c => c.tag == kTag "Point") := by
  have ha : ∀ l : List Elem,
      (l.any fun c => c.tag == kTag "Point") =
        (l.map Elem.tag).any fun s => s == kTag "Point" := by
    intro l
    induction l with
    | nil => rfl
    | cons c cs ih => simp [List.any_cons, ih]
  rw [ha, ha, h]

theorem isWpt_of_tags_eq (t : String) (x x' : Option String) (cs cs' : List Elem)
    (h : cs'.map Elem.tag = cs.map Elem.tag) :
    isWpt (.mk t x' cs') = isWpt (.mk t x cs) := by
  unfold isWpt
  rw [tag_mk, tag_mk, children_mk, children_mk, any_point_of_tags_eq cs' cs h]

theorem wptIn_appendChildren (c : Elem) (ns : List Elem)
    (hc : wptIn c = [])
    (hns : ∀ n ∈ ns, (n.tag == kTag "Point") = false) :
    wptIn (appendChildren c ns) = wptInList ns := by
  cases c with
  | mk t x cs =>
    rcases (wptIn_eq_nil_iff _).mp hc with ⟨hw, hcs⟩
    rw [children_mk] at hcs
    rw [appendChildren_def, wptIn_def]
    have hwa : isWpt (Elem.mk t x (cs ++ ns)) = false := by
      unfold isWpt at hw ⊢
      rw [tag_mk, children_mk] at hw ⊢
      rcases Bool.and_eq_false_iff.mp hw with hT | hA
      · rw [hT, Bool.false_and]
      · rw [List.any_append, hA, Bool.false_or]
        cases hTT : (t == kTag "Placemark")
        · rw [Bool.false_and]
        · rw [Bool.true_and]
          exact List.any_eq_false.mpr (fun n hn => by
            rw [hns n hn]
            exact Bool.false_ne_true)
    rw [hwa]
    simp only [Bool.false_eq_true, if_false, List.nil_append]
    rw [wptInList_append, hcs, List.nil_append]

theorem appendAtList_wptInList (p : Elem → Bool) (ns : List Elem)
    (hns : ∀ n ∈ ns, (n.tag == kTag "Point") = false) :
    ∀ l : List Elem,
      (∀ c ∈ l, ∀ c', wptIn c = [] → appendAt p ns c = some c' →
        wptIn c' = wptInList ns) →
      ∀ l', wptInList l = [] → appendAtList p ns l = some l' →
        wptInList l' = wptInList ns := by
  intro l
  induction l with
  | nil =>
    intro _ l' _ h
    rw [appendAtList_nil] at h
    exact Option.noConfusion h
  | cons c cs ih =>
    intro H l' hl h
    rw [wptInList_cons] at hl
    rcases List.append_eq_nil.mp hl with ⟨hc, hcs⟩
    rw [appendAtList_cons] at h
    by_cases hp : p c
    · rw [if_pos hp] at h
      cases h
      rw [wptInList_cons, hcs, List.append_nil]
      exact wptIn_appendChildren c ns hc hns
    · rw [if_neg hp] at h
      cases hac : appendAt p ns c with
      | some c' =>
        rw [hac] at h
        cases h
        rw [wptInList_cons, hcs, List.append_nil]
        exact H c (List.mem_cons_self _ _) c' hc hac
      | none =>
        rw [hac] at h
        cases hacl : appendAtList p ns cs with
        | some cs' =>
          rw [hacl] at h
          cases h
          rw [wptInList_cons, hc, List.nil_append]
          exact ih (fun d hd => H d (List.mem_cons_of_mem c hd)) cs' hcs hacl
        | none =>
          rw [hacl] at h
          exact Option.noConfusion h

theorem appendAt_wptIn (p : Elem → Bool) (ns : List Elem)
    (hns : ∀ n ∈ ns, (n.tag == kTag "Point") = false) :
    ∀ e e', wptIn e = [] → appendAt p ns e = some e' → wptIn e' = wptInList ns := by
  refine elem_ind
    (fun e => ∀ e', wptIn e = [] → appendAt p ns e = some e' → wptIn e' = wptInList ns)
    (fun t x cs ih => ?_)
  intro e' he happ
  rw [appendAt_mk] at happ
  cases hl : appendAtList p ns cs with
  | none => rw [hl] at happ; exact Option.noConfusion happ
  | some cs' =>
    rw [hl] at happ
    cases happ
    rcases (wptIn_eq_nil_iff _).mp he with ⟨hw, hcs⟩
    rw [children_mk] at hcs
    rw [wptIn_def]
    have hiso : isWpt (Elem.mk t x cs') = false := by
      rw [isWpt_of_tags_eq t x x cs cs' (appendAtList_tags p ns cs cs' hl)]
      exact hw
    rw [hiso]
    simp only [Bool.false_eq_true, if_false, List.nil_append]
    exact appendAtList_wptInList p ns hns cs ih cs' hcs hl

theorem appendAtList_wpt (p : Elem → Bool) (ns : List Elem)
    (hns : ∀ n ∈ ns, (n.tag == kTag "Point") = false)
    (l l' : List Elem) (hl : wptInList l = [])
    (h : appendAtList p ns l = some l') : wptInList l' = wptInList ns :=
  appendAtList_wptInList p ns hns l (fun c _ => appendAt_wptIn p ns hns c) l' hl h

theorem findDesc_mk (p : Elem → Bool) (t : String) (x : Option String)
    (cs : List Elem) : findDesc p (.mk t x cs) = findDescList p cs := by
  rw [findDesc]

theorem findDescList_nil (p : Elem → Bool) : findDescList p [] = none := by
  rw [findDescList]

theorem findDescList_cons (p : Elem → Bool) (c : Elem) (cs : List Elem) :
    findDescList p (c :: cs) =
      if p c then some c
      else
        match findDesc p c with
        | some d => some d
        | none => findDescList p cs := by
  rw [findDescList]

theorem appendAtList_none_iff_aux (p : Elem → Bool) (ns : List Elem) :
    ∀ l : List Elem,
      (∀ c ∈ l, (appendAt p ns c = none ↔ findDesc p c = none)) →
      (appendAtList p ns l = none ↔ findDescList p l = none) := by
  intro l
  induction l with
  | nil => intro _; rw [appendAtList_nil, findDescList_nil]; simp
  | cons c cs ih =>
    intro H
    rw [appendAtList_cons, findDescList_cons]
    by_cases hp : p c
    · rw [if_pos hp, if_pos hp]
      constructor <;> (intro h; exact Option.noConfusion h)
    · rw [if_neg hp, if_neg hp]
      cases hac : appendAt p ns c with
      | some c' =>
        have : findDesc p c ≠ none := by
          intro hfd
          rw [(H c (List.mem_cons_self _ _)).mpr hfd] at hac
          exact Option.noConfusion hac
        cases hfd : findDesc p c with
        | none => exact absurd hfd this
        | some d =>
          constructor <;> (intro h; exact Option.noConfusion h)
      | none =>
        have hfd : findDesc p c = none := (H c (List.mem_cons_self _ _)).mp hac
        rw [hfd]
        cases hacl : appendAtList p ns cs with
        | some cs' =>
          have : findDescList p cs ≠ none := by
            intro hfl
            rw [(ih (fun d hd => H d (List.mem_cons_of_mem c hd))).mpr hfl] at hacl
            exact Option.noConfusion hacl
          cases hfl : findDescList p cs with
          | none => exact absurd hfl this
          | some d => constructor <;> (intro h; exact Option.noConfusion h)
        | none =>
          have hfl : findDescList p cs = none :=
            (ih (fun d hd => H d (List.mem_cons_of_mem c hd))).mp hacl
          simp [hfl]

theorem appendAt_none_iff (p : Elem → Bool) (ns : List Elem) :
    ∀ e, (appendAt p ns e = none ↔ findDesc p e = none) := by
  refine elem_ind (fun e => (appendAt p ns e = none ↔ findDesc p e = none))
    (fun t x cs ih => ?_)
  show appendAt p ns (.mk t x cs) = none ↔ findDesc p (.mk t x cs) = none
  rw [appendAt_mk, findDesc_mk]
  have h := appendAtList_none_iff_aux p ns cs ih
  cases hl : appendAtList p ns cs with
  | none =>
    rw [hl] at h
    have hfl : findDescList p cs = none := h.mp rfl
    simp [hfl]
  | some cs' =>
    have hne : findDescList p cs ≠ none := by
      intro hfl
      have := h.mpr hfl
      rw [hl] at this
      exact Option.noConfusion this
    cases hfl : findDescList p cs with
    | none => exact absurd hfl hne
    | some d => simp

theorem wptInList_of_singles (ns : List Elem)
    (h : ∀ n ∈ ns, wptIn n = [n]) : wptInList ns = ns := by
  induction ns with
  | nil => exact wptInList_nil
  | cons n rest ih =>
    rw [wptInList_cons, h n (List.mem_cons_self _ _),
      ih (fun m hm => h m (List.mem_cons_of_mem n hm))]
    rfl

theorem placemarksOf_head_sampleRoot : (placemarksOf sampleRoot).head? = some seedPm1 := rfl

/-! ### The regenerated placemarks are exactly the waypoint records -/

theorem pointElem_tag (p : Point) : (pointElem p).tag = kTag "Point" := rfl

theorem wptIn_coordsElem (p : Point) : wptIn (coordsElem p) = [] := by
  rw [coordsElem, wptIn_def, wptInList_nil]
  have : isWpt (Elem.mk (kTag "coordinates") (some (coordText3 p)) []) = false := by
    unfold isWpt
    rw [children_mk]
    simp
  rw [this]
  simp

theorem wptIn_pointElem (p : Point) : wptIn (pointElem p) = [] := by
  rw [pointElem, wptIn_def, wptInList_cons, wptIn_coordsElem, wptInList_nil]
  have : isWpt (Elem.mk (kTag "Point") none [coordsElem p]) = false := by
    unfold isWpt
    rw [tag_mk]
    have : (kTag "Point" == kTag "Placemark") = false := by decide
    rw [this, Bool.false_and]
  rw [this]
  simp

theorem isWpt_mkWaylinePm (tpl : Option Elem) (p : Point) :
    isWpt (mkWaylinePm tpl p) = true := by
  rw [mkWaylinePm]
  unfold isWpt
  rw [tag_mk, children_mk, List.any_cons, pointElem_tag]
  have h1 : (kTag "Placemark" == kTag "Placemark") = true := by decide
  have h2 : (kTag "Point" == kTag "Point") = true := by decide
  rw [h1, h2, Bool.true_and, Bool.true_or]

theorem wptIn_mkWaylinePm (tpl : Option Elem) (p : Point)
    (hclean : wptInList (waylineCloneChildren tpl) = []) :
    wptIn (mkWaylinePm tpl p) = [mkWaylinePm tpl p] := by
  conv_lhs => rw [mkWaylinePm]
  rw [wptIn_def, wptInList_cons, wptIn_pointElem, hclean]
  have := isWpt_mkWaylinePm tpl p
  rw [mkWaylinePm] at this
  rw [this]
  simp [mkWaylinePm]

theorem mkWaylinePm_tag_ne_point (tpl : Option Elem) (p : Point) :
    ((mkWaylinePm tpl p).tag == kTag "Point") = false := by
  rw [mkWaylinePm, tag_mk]
  decide

/-- Core structure of the waylines rewrite: when at least 2 points are
    supplied, a document element survives the removal pass, and the cloned
    template children contain no waypoint-shaped records, the rewrite
    succeeds and the rewritten document's waypoint records are exactly the
    freshly built placemarks, one per point, in input order. -/
theorem buildWaylines_ok (root : Elem) (points : List Point)
    (h2 : 2 ≤ points.length)
    (hdoc : (locateDocument (stripWpt root)).isSome = true)
    (hclean : wptInList (waylineCloneChildren ((placemarksOf root).head?)) = []) :
    ∃ out, buildWaylines root points = .ok out ∧
      placemarksOf out = points.map (mkWaylinePm ((placemarksOf root).head?)) := by
  have hlt : ¬points.length < 2 := by omega
  set tpl := (placemarksOf root).head? with htpl
  set ns := points.map (mkWaylinePm tpl) with hns
  have hns_tag : ∀ n ∈ ns, (n.tag == kTag "Point") = false := by
    intro n hn
    rcases List.mem_map.mp hn with ⟨p, _, rfl⟩
    exact mkWaylinePm_tag_ne_point tpl p
  have hsingle : ∀ n ∈ ns, wptIn n = [n] := by
    intro n hn
    rcases List.mem_map.mp hn with ⟨p, _, rfl⟩
    exact wptIn_mkWaylinePm tpl p hclean
  have hns_eq : wptInList ns = ns := wptInList_of_singles ns hsingle
  obtain ⟨t, x, cs⟩ := root
  have hstrip : wptInList (stripList cs) = [] := by
    have := strip_children_no_wpt (.mk t x cs)
    rwa [children_mk] at this
  rw [buildWaylines, if_neg hlt]
  simp only [← htpl, ← hns]
  rw [stripWpt_mk] at hdoc ⊢
  rw [appendAt_mk]
  cases h1 : appendAtList isKmlDoc ns (stripList cs) with
  | some cs' =>
    refine ⟨.mk t x cs', rfl, ?_⟩
    show wptInList cs' = _
    rw [appendAtList_wpt isKmlDoc ns hns_tag (stripList cs) cs' hstrip h1, hns_eq]
  | none =>
    have hfd1 : findDescList isKmlDoc (stripList cs) = none := by
      have := (appendAt_none_iff isKmlDoc ns (.mk t x (stripList cs))).mp
        (by rw [appendAt_mk, h1])
      rwa [findDesc_mk] at this
    by_cases hkd : isKmlDoc (.mk t x (stripList cs))
    · rw [if_pos hkd, appendChildren_def]
      refine ⟨_, rfl, ?_⟩
      show wptInList (stripList cs ++ ns) = _
      rw [wptInList_append, hstrip, List.nil_append, hns_eq]
    · rw [if_neg hkd, appendAt_mk]
      cases h2' : appendAtList isPlainDoc ns (stripList cs) with
      | some cs' =>
        refine ⟨.mk t x cs', rfl, ?_⟩
        show wptInList cs' = _
        rw [appendAtList_wpt isPlainDoc ns hns_tag (stripList cs) cs' hstrip h2', hns_eq]
      | none =>
        exfalso
        have hfd2 : findDescList isPlainDoc (stripList cs) = none := by
          have := (appendAt_none_iff isPlainDoc ns (.mk t x (stripList cs))).mp
            (by rw [appendAt_mk, h2'])
          rwa [findDesc_mk] at this
        rw [locateDocument, findDesc_mk, hfd1, if_neg hkd, findDesc_mk, hfd2] at hdoc
        exact Bool.false_ne_true hdoc

theorem coordTextOf_mkWaylinePm (tpl : Option Elem) (p : Point) :
    coordTextOf (mkWaylinePm tpl p) = some (coordText3 p) := rfl

theorem coordTextOf_mkTemplatePm (tpl : Option Elem) (i : Nat) (p : Point) :
    coordTextOf (mkTemplatePm tpl i p) = some (coordText3 p) := rfl

theorem mkWaylinePm_children_tail (tpl : Option Elem) (p : Point) :
    (mkWaylinePm tpl p).children.tail = waylineCloneChildren tpl := rfl

theorem mkTemplatePm_children_head (tpl : Option Elem) (i : Nat) (p : Point) :
    (mkTemplatePm tpl i p).children.head? = some (nameElem i) := rfl

theorem nameElem_text (i : Nat) :
    (nameElem i).text = some ("Waypoint " ++ toString (i + 1)) := rfl

/-! ### Point-extraction lemmas -/

theorem pointsFromFeatures_nil (ov : Option ℚ) : pointsFromFeatures [] ov = .ok [] := by
  rw [pointsFromFeatures]

theorem pointsFromFeatures_skip (f : Feature) (rest : List Feature) (ov : Option ℚ)
    (h : (pyLower f.geomType == "point") = false) :
    pointsFromFeatures (f :: rest) ov = pointsFromFeatures rest ov := by
  rw [pointsFromFeatures.eq_def]
  simp only [h, Bool.false_eq_true, if_false]

theorem pointsFromFeatures_point (f : Feature) (rest : List Feature) (ov : Option ℚ)
    (lon lat : ℚ) (tl : List ℚ)
    (hty : (pyLower f.geomType == "point") = true) (hco : f.coords = lon :: lat :: tl) :
    pointsFromFeatures (f :: rest) ov =
      (pointsFromFeatures rest ov).map
        (fun pts => (⟨lon, lat, featureAlt f ov⟩ : Point) :: pts) := by
  rw [pointsFromFeatures.eq_def]
  simp only [hty, if_true, hco]

theorem pointsFromFeatures_override (V : ℚ) :
    ∀ (fs : List Feature) (pts : List Point),
      pointsFromFeatures fs (some V) = .ok pts → ∀ p ∈ pts, p.alt = V := by
  intro fs
  induction fs with
  | nil =>
    intro pts h p hp
    rw [pointsFromFeatures_nil] at h
    injection h with h2
    subst h2
    exact absurd hp (List.not_mem_nil p)
  | cons f rest ih =>
    intro pts h p hp
    by_cases hty : (pyLower f.geomType == "point") = true
    · cases hco : f.coords with
      | nil =>
        rw [pointsFromFeatures.eq_def] at h
        simp only [hty, if_true, hco] at h
        exact Except.noConfusion h
      | cons lon ltl =>
        cases ltl with
        | nil =>
          rw [pointsFromFeatures.eq_def] at h
          simp only [hty, if_true, hco] at h
          exact Except.noConfusion h
        | cons lat tl =>
          rw [pointsFromFeatures_point f rest (some V) lon lat tl hty hco] at h
          cases hrec : pointsFromFeatures rest (some V) with
          | error e =>
            rw [hrec] at h
            exact Except.noConfusion h
          | ok pts' =>
            rw [hrec] at h
            have h2 : (⟨lon, lat, featureAlt f (some V)⟩ : Point) :: pts' = pts := by
              injection h with h3
            subst h2
            rcases List.mem_cons.mp hp with rfl | hm
            · rfl
            · exact ih pts' hrec p hm
    · rw [pointsFromFeatures_skip f rest (some V) (Bool.not_eq_true _ |>.mp hty)] at h
      exact ih pts h p hp

/-! ### Strip preserves the absence of a document element -/

theorem isKmlDoc_stripWpt (e : Elem) : isKmlDoc (stripWpt e) = isKmlDoc e := by
  unfold isKmlDoc
  rw [stripWpt_tag]

theorem isPlainDoc_stripWpt (e : Elem) : isPlainDoc (stripWpt e) = isPlainDoc e := by
  unfold isPlainDoc
  rw [stripWpt_tag]

theorem findDescList_none_parts (p : Elem → Bool) (c : Elem) (cs : List Elem)
    (h : findDescList p (c :: cs) = none) :
    p c = false ∧ findDesc p c = none ∧ findDescList p cs = none := by
  rw [findDescList_cons] at h
  by_cases hp : p c
  · rw [if_pos hp] at h
    exact Option.noConfusion h
  · rw [if_neg hp] at h
    cases hfd : findDesc p c with
    | some d =>
      rw [hfd] at h
      exact Option.noConfusion h
    | none =>
      rw [hfd] at h
      exact ⟨Bool.not_eq_true _ |>.mp hp, rfl, h⟩

theorem findDesc_strip_aux (p : Elem → Bool) (hpt : ∀ e, p (stripWpt e) = p e) :
    ∀ l : List Elem,
      (∀ c ∈ l, findDesc p c = none → findDesc p (stripWpt c) = none) →
      findDescList p l = none → findDescList p (stripList l) = none := by
  intro l
  induction l with
  | nil => intro _ _; rw [stripList]; exact findDescList_nil p
  | cons c cs ih =>
    intro H h
    rcases findDescList_none_parts p c cs h with ⟨hpc, hfc, hcs⟩
    rw [stripList]
    by_cases hw : isWpt c
    · rw [if_pos hw]
      exact ih (fun d hd => H d (List.mem_cons_of_mem c hd)) hcs
    · rw [if_neg hw, findDescList_cons, hpt c, hpc]
      simp only [Bool.false_eq_true, if_false]
      rw [H c (List.mem_cons_self _ _) hfc]
      exact ih (fun d hd => H d (List.mem_cons_of_mem c hd)) hcs

theorem findDesc_stripWpt_none (p : Elem → Bool) (hpt : ∀ e, p (stripWpt e) = p e) :
    ∀ e, findDesc p e = none → findDesc p (stripWpt e) = none := by
  refine elem_ind (fun e => findDesc p e = none → findDesc p (stripWpt e) = none)
    (fun t x cs ih => ?_)
  intro h
  rw [findDesc_mk] at h
  rw [stripWpt_mk, findDesc_mk]
  exact findDesc_strip_aux p hpt cs ih h

theorem locateDocument_none_parts (e : Elem) (h : locateDocument e = none) :
    findDesc isKmlDoc e = none ∧ isKmlDoc e = false ∧ findDesc isPlainDoc e = none := by
  rw [locateDocument] at h
  cases h1 : findDesc isKmlDoc e with
  | some d =>
    rw [h1] at h
    exact Option.noConfusion h
  | none =>
    rw [h1] at h
    by_cases h2 : isKmlDoc e
    · rw [if_pos h2] at h
      exact Option.noConfusion h
    · rw [if_neg h2] at h
      exact ⟨rfl, Bool.not_eq_true _ |>.mp h2, h⟩

/-! ### Decimal formatting: evaluation and round-trip -/

theorem decDigitsAux_eq (fuel n : Nat) (h : n ≤ fuel) :
    decDigitsAux fuel n = Nat.digits 10 n := by
  induction fuel generalizing n with
  | zero => interval_cases n; simp [decDigitsAux]
  | succ f ih =>
    match n with
    | 0 => simp [decDigitsAux]
    | m + 1 =>
      rw [Nat.digits_def' (by norm_num : (1:ℕ) < 10) (Nat.succ_pos m), decDigitsAux]
      exact congrArg _ (ih ((m + 1) / 10) (by omega))

theorem decDigits_eq (n : Nat) : decDigits n = Nat.digits 10 n :=
  decDigitsAux_eq n n le_rfl

theorem decDigits_lt (n : Nat) : ∀ d ∈ decDigits n, d < 10 := by
  rw [decDigits_eq]
  exact fun d hd => Nat.digits_lt_base (by norm_num) hd

theorem pyRound_intCast (z : ℤ) : pyRound (z : ℚ) = z := by
  unfold pyRound
  rw [Int.floor_intCast]
  norm_num

theorem pyFmt_eval (prec : Nat) (q : ℚ) (z : ℤ) (h : q * 10 ^ prec = (z : ℚ)) :
    pyFmt prec q = ⟨fmtScaled prec z⟩ := by
  rw [pyFmt, h, pyRound_intCast]

theorem coordText3_eval (p : Point) (a b c : ℤ)
    (ha : p.lon * 10 ^ 7 = (a : ℚ)) (hb : p.lat * 10 ^ 7 = (b : ℚ))
    (hc : p.alt * 10 ^ 2 = (c : ℚ)) :
    coordText3 p =
      (⟨fmtScaled 7 a⟩ : String) ++ "," ++ ⟨fmtScaled 7 b⟩ ++ "," ++ ⟨fmtScaled 2 c⟩ := by
  rw [coordText3, pyFmt_eval 7 p.lon a ha, pyFmt_eval 7 p.lat b hb, pyFmt_eval 2 p.alt c hc]

theorem digitChar_isDigit : ∀ d < 10, (Nat.digitChar d).isDigit = true := by decide

theorem decDigitVal_digitChar : ∀ d < 10, decDigitVal (Nat.digitChar d) = some d := by decide

theorem digitChar_ne_special : ∀ d < 10,
    Nat.digitChar d ≠ ',' ∧ Nat.digitChar d ≠ '.' ∧ Nat.digitChar d ≠ '-' := by decide

theorem digitsVal_go (L : List ℕ) (h : ∀ d ∈ L, d < 10) : ∀ a : ℕ,
    List.foldlM (fun x c => (decDigitVal c).map (fun d => x * 10 + d)) a
        (L.map Nat.digitChar) =
      some (L.foldl (fun x d => x * 10 + d) a) := by
  induction L with
  | nil => intro a; rfl
  | cons d L ih =>
    intro a
    rw [List.map_cons, List.foldlM_cons,
      decDigitVal_digitChar d (h d (List.mem_cons_self _ _))]
    show List.foldlM _ (a * 10 + d) (L.map Nat.digitChar) = _
    rw [ih (fun e he => h e (List.mem_cons_of_mem d he)), List.foldl_cons]

theorem digitsVal_map (L : List ℕ) (h : ∀ d ∈ L, d < 10) :
    digitsVal (L.map Nat.digitChar) = some (L.foldl (fun x d => x * 10 + d) 0) := by
  rw [digitsVal]
  exact digitsVal_go L h 0

theorem foldl_reverse_ofDigits (L : List ℕ) :
    L.reverse.foldl (fun x d => x * 10 + d) 0 = Nat.ofDigits 10 L := by
  induction L with
  | nil => rfl
  | cons d L ih =>
    rw [List.reverse_cons, List.foldl_append, ih, List.foldl_cons, List.foldl_nil,
      Nat.ofDigits_cons]
    ring

theorem natDecChars_ne_nil (n : Nat) : natDecChars n ≠ [] := by
  rw [natDecChars]
  by_cases h : n = 0
  · rw [if_pos h]; exact List.cons_ne_nil _ _
  · rw [if_neg h]
    intro hc
    rcases List.map_eq_nil_iff.mp hc with hrev
    rw [List.reverse_eq_nil_iff, decDigits_eq] at hrev
    exact h (Nat.digits_eq_nil_iff_eq_zero.mp hrev)

theorem mem_natDecChars_isDigit (n : Nat) : ∀ ch ∈ natDecChars n, ch.isDigit = true := by
  intro ch hch
  rw [natDecChars] at hch
  by_cases h : n = 0
  · rw [if_pos h] at hch
    rcases List.mem_singleton.mp hch with rfl
    decide
  · rw [if_neg h] at hch
    rcases List.mem_map.mp hch with ⟨d, hd, rfl⟩
    exact digitChar_isDigit d (decDigits_lt n d (List.mem_reverse.mp hd))

theorem digitsVal_natDecChars (n : Nat) : digitsVal (natDecChars n) = some n := by
  rw [natDecChars]
  by_cases h : n = 0
  · rw [if_pos h, h]; decide
  · rw [if_neg h,
      digitsVal_map _ (fun d hd => decDigits_lt n d (List.mem_reverse.mp hd)),
      foldl_reverse_ofDigits, decDigits_eq, Nat.ofDigits_digits]

theorem isDigit_ne_special (ch : Char) (h : ch.isDigit = true) :
    ch ≠ ',' ∧ ch ≠ '.' ∧ ch ≠ '-' := by
  refine ⟨?_, ?_, ?_⟩ <;> (intro he; rw [he] at h; exact absurd h (by decide))

theorem splitOnChar_nil (c : Char) : splitOnChar c [] = [[]] := by rw [splitOnChar]

theorem splitOnChar_cons (c a : Char) (rest : List Char) :
    splitOnChar c (a :: rest) =
      if a = c then [] :: splitOnChar c rest
      else
        match splitOnChar c rest with
        | h :: t => (a :: h) :: t
        | [] => [[a]] := by
  rw [splitOnChar]

theorem splitOnChar_not_mem (c : Char) (l : List Char) (h : c ∉ l) :
    splitOnChar c l = [l] := by
  induction l with
  | nil => exact splitOnChar_nil c
  | cons a rest ih =>
    have ha : a ≠ c := fun he => h (he ▸ List.mem_cons_self a rest)
    rw [splitOnChar_cons, if_neg ha, ih (fun hm => h (List.mem_cons_of_mem a hm))]

theorem splitOnChar_append (c : Char) (A B : List Char) (h : c ∉ A) :
    splitOnChar c (A ++ c :: B) = A :: splitOnChar c B := by
  induction A with
  | nil =>
    rw [List.nil_append, splitOnChar_cons, if_pos rfl]
  | cons a A ih =>
    have ha : a ≠ c := fun he => h (he ▸ List.mem_cons_self a A)
    rw [List.cons_append, splitOnChar_cons, if_neg ha,
      ih (fun hm => h (List.mem_cons_of_mem a hm))]

theorem foldl_replicate_zero (k : Nat) :
    (List.replicate k 0).foldl (fun x d => x * 10 + d) 0 = 0 := by
  induction k with
  | zero => rfl
  | succ n ih => rw [List.replicate_succ, List.foldl_cons]; simpa using ih

theorem mem_pad_frac (prec : Nat) (fp : Nat) (ch : Char)
    (h : ch ∈ List.replicate (prec - ((decDigits fp).reverse.map Nat.digitChar).length) '0' ++
      (decDigits fp).reverse.map Nat.digitChar) : ch.isDigit = true := by
  rcases List.mem_append.mp h with hm | hm
  · rw [List.eq_of_mem_replicate hm]; decide
  · rcases List.mem_map.mp hm with ⟨d, hd, rfl⟩
    exact digitChar_isDigit d (decDigits_lt fp d (List.mem_reverse.mp hd))

theorem digitsVal_pad_frac (prec : Nat) (fp : Nat) :
    digitsVal (List.replicate (prec - ((decDigits fp).reverse.map Nat.digitChar).length) '0' ++
      (decDigits fp).reverse.map Nat.digitChar) = some fp := by
  have hzero : Nat.digitChar 0 = '0' := by decide
  have hmap : List.replicate (prec - ((decDigits fp).reverse.map Nat.digitChar).length) '0' ++
      (decDigits fp).reverse.map Nat.digitChar =
      (List.replicate (prec - ((decDigits fp).reverse.map Nat.digitChar).length) 0 ++
        (decDigits fp).reverse).map Nat.digitChar := by
    rw [List.map_append, List.map_replicate, hzero]
  rw [hmap, digitsVal_map]
  · rw [List.foldl_append, foldl_replicate_zero, foldl_reverse_ofDigits, decDigits_eq,
      Nat.ofDigits_digits]
  · intro d hd
    rcases List.mem_append.mp hd with hm | hm
    · rw [List.eq_of_mem_replicate hm]; norm_num
    · exact decDigits_lt fp d (List.mem_reverse.mp hm)

theorem frac_length (prec : Nat) (fp : Nat) (hfp : fp < 10 ^ prec) :
    (List.replicate (prec - ((decDigits fp).reverse.map Nat.digitChar).length) '0' ++
      (decDigits fp).reverse.map Nat.digitChar).length = prec := by
  have hD : ((decDigits fp).reverse.map Nat.digitChar).length = (Nat.digits 10 fp).length := by
    rw [List.length_map, List.length_reverse, decDigits_eq]
  have hle : (Nat.digits 10 fp).length ≤ prec := by
    by_cases h0 : fp = 0
    · rw [h0]; simp
    · rw [Nat.digits_len 10 fp (by norm_num) h0]
      have := Nat.log_lt_of_lt_pow h0 hfp
      omega
  rw [List.length_append, List.length_replicate, hD]
  omega

theorem parsePos_fmt_core (prec : Nat) (hp : 0 < prec) (m : Nat) :
    parsePosChars (natDecChars (m / 10 ^ prec) ++ '.' ::
        (List.replicate (prec - ((decDigits (m % 10 ^ prec)).reverse.map Nat.digitChar).length) '0' ++
          (decDigits (m % 10 ^ prec)).reverse.map Nat.digitChar)) =
      some ((m : ℚ) / 10 ^ prec) := by
  set ip := m / 10 ^ prec with hip
  set fp := m % 10 ^ prec with hfp
  set D := (decDigits fp).reverse.map Nat.digitChar with hD
  set pad := List.replicate (prec - D.length) '0' with hpad
  have hfp_lt : fp < 10 ^ prec := Nat.mod_lt m (Nat.pos_pow_of_pos prec (by norm_num))
  have hnodotA : '.' ∉ natDecChars ip := fun hm =>
    (isDigit_ne_special '.' (mem_natDecChars_isDigit ip '.' hm)).2.1 rfl
  have hnodotB : '.' ∉ pad ++ D := fun hm =>
    (isDigit_ne_special '.' (mem_pad_frac prec fp '.' hm)).2.1 rfl
  have hsplit : splitOnChar '.' (natDecChars ip ++ '.' :: (pad ++ D)) =
      [natDecChars ip, pad ++ D] := by
    rw [splitOnChar_append '.' _ _ hnodotA, splitOnChar_not_mem '.' _ hnodotB]
  have hlen : (pad ++ D).length = prec := frac_length prec fp hfp_lt
  have hA_ne : (natDecChars ip).isEmpty = false := by
    rcases List.exists_cons_of_ne_nil (natDecChars_ne_nil ip) with ⟨ch, chs, hch⟩
    rw [hch]
    rfl
  have hB_ne : (pad ++ D).isEmpty = false := by
    cases hpd : pad ++ D with
    | nil => rw [hpd] at hlen; rw [List.length_nil] at hlen; omega
    | cons ch chs => rfl
  have hBv : digitsVal (pad ++ D) = some fp := by
    rw [hpad, hD]
    exact digitsVal_pad_frac prec fp
  rw [parsePosChars, hsplit]
  simp only [hA_ne, hB_ne, Bool.or_false, Bool.false_or, Bool.false_eq_true, if_false,
    digitsVal_natDecChars, hBv, Option.some_bind, Option.pure_def]
  show some ((ip : ℚ) + (fp : ℚ) / 10 ^ (pad ++ D).length) = some ((m : ℚ) / 10 ^ prec)
  rw [hlen]
  congr 1
  have hm : ip * 10 ^ prec + fp = m := by
    rw [hip, hfp]
    exact Nat.div_add_mod' m (10 ^ prec)
  have hcast : (ip : ℚ) * (10 : ℚ) ^ prec + (fp : ℚ) = (m : ℚ) := by
    have h2 : ((ip * 10 ^ prec + fp : ℕ) : ℚ) = ((m : ℕ) : ℚ) := by rw [hm]
    push_cast at h2
    exact h2
  have hpow : (10 : ℚ) ^ prec ≠ 0 := by positivity
  field_simp
  linarith [hcast]

theorem parseDec_fmtScaled (prec : Nat) (hp : 0 < prec) (z : ℤ) :
    parseDecChars (fmtScaled prec z) = some ((z : ℚ) / 10 ^ prec) := by
  set m := z.natAbs with hm
  set ip := m / 10 ^ prec with hip
  set fp := m % 10 ^ prec with hfp
  set D := (decDigits fp).reverse.map Nat.digitChar with hD
  set pad := List.replicate (prec - D.length) '0' with hpad
  have hcore : fmtScaled prec z =
      (if z < 0 then ['-'] else []) ++ (natDecChars ip ++ '.' :: (pad ++ D)) := by
    rw [fmtScaled]
    simp only [hpad, hD, hip, hfp, hm]
    rw [List.append_assoc]
  have hval := parsePos_fmt_core prec hp m
  have hval' : parsePosChars (natDecChars ip ++ '.' :: (pad ++ D)) =
      some ((m : ℚ) / 10 ^ prec) := by
    rw [hpad, hD, hip, hfp]
    exact hval
  rcases List.exists_cons_of_ne_nil (natDecChars_ne_nil ip) with ⟨ch, chs, hch⟩
  have hch_digit : ch.isDigit = true :=
    mem_natDecChars_isDigit ip ch (by rw [hch]; exact List.mem_cons_self _ _)
  have hch_ne : ch ≠ '-' := (isDigit_ne_special ch hch_digit).2.2
  by_cases hz : z < 0
  · rw [hcore, if_pos hz]
    rw [parseDecChars]
    have hhead : (('-' :: (natDecChars ip ++ '.' :: (pad ++ D))) : List Char).head? = some '-' := rfl
    rw [show (['-'] ++ (natDecChars ip ++ '.' :: (pad ++ D))) =
      '-' :: (natDecChars ip ++ '.' :: (pad ++ D)) from rfl, hhead, if_pos rfl]
    show (parsePosChars (natDecChars ip ++ '.' :: (pad ++ D))).map (fun q => -q) = _
    rw [hval']
    have hmz : (m : ℚ) = -(z : ℚ) := by
      have h1 : (m : ℤ) = -z := by
        rw [hm]
        omega
      have h2 : ((m : ℤ) : ℚ) = ((-z : ℤ) : ℚ) := by rw [h1]
      push_cast at h2
      exact h2
    show some (-((m : ℚ) / 10 ^ prec)) = some ((z : ℚ) / 10 ^ prec)
    congr 1
    rw [hmz]
    ring
  · rw [hcore, if_neg hz, List.nil_append]
    rw [parseDecChars]
    have hhead : (natDecChars ip ++ '.' :: (pad ++ D)).head? = some ch := by
      rw [hch]
      rfl
    have hne : ¬((natDecChars ip ++ '.' :: (pad ++ D)).head? = some '-') := by
      rw [hhead]
      intro hcon
      rw [Option.some.injEq] at hcon
      exact hch_ne hcon
    rw [if_neg hne, hval']
    have hmz : (m : ℚ) = (z : ℚ) := by
      have h1 : (m : ℤ) = z := by
        rw [hm]
        omega
      have h2 : ((m : ℤ) : ℚ) = ((z : ℤ) : ℚ) := by rw [h1]
      push_cast at h2
      exact h2
    rw [hmz]

theorem mem_fmtScaled_isDigit_or (prec : Nat) (z : ℤ) :
    ∀ ch ∈ fmtScaled prec z, ch = '-' ∨ ch = '.' ∨ ch.isDigit = true := by
  intro ch hch
  rw [fmtScaled] at hch
  rcases List.mem_append.mp hch with hsn | hdot
  · rcases List.mem_append.mp hsn with hs | hip
    · left
      rcases (inferInstance : Decidable (z < 0)) with hz | hz
      · rw [if_neg hz] at hs
        exact absurd hs (List.not_mem_nil ch)
      · rw [if_pos hz] at hs
        exact List.mem_singleton.mp hs
    · right; right
      exact mem_natDecChars_isDigit _ ch hip
  · rcases List.mem_cons.mp hdot with rfl | hfr
    · right; left; rfl
    · right; right
      exact mem_pad_frac prec _ ch hfr

theorem comma_not_mem_fmtScaled (prec : Nat) (z : ℤ) : ',' ∉ fmtScaled prec z := by
  intro hm
  rcases mem_fmtScaled_isDigit_or prec z ',' hm with h | h | h
  · exact absurd h (by decide)
  · exact absurd h (by decide)
  · exact absurd h (by decide)

theorem data_coordText3 (p : Point) (a b c : ℤ)
    (ha : p.lon * 10 ^ 7 = (a : ℚ)) (hb : p.lat * 10 ^ 7 = (b : ℚ))
    (hc : p.alt * 10 ^ 2 = (c : ℚ)) :
    (coordText3 p).data =
      fmtScaled 7 a ++ ',' :: (fmtScaled 7 b ++ ',' :: fmtScaled 2 c) := by
  rw [coordText3_eval p a b c ha hb hc]
  have hmk : ∀ l : List Char, (String.mk l).data = l := fun l => rfl
  have hcomma : ("," : String).data = [','] := rfl
  rw [String.data_append, String.data_append, String.data_append, String.data_append,
    hmk, hmk, hmk, hcomma]
  simp [List.append_assoc]

theorem parseCoords_coordText3 (p : Point) (a b c : ℤ)
    (ha : p.lon * 10 ^ 7 = (a : ℚ)) (hb : p.lat * 10 ^ 7 = (b : ℚ))
    (hc : p.alt * 10 ^ 2 = (c : ℚ)) :
    parseCoords (coordText3 p) = some (p.lon, p.lat, p.alt) := by
  have hsplit : splitOnChar ',' ((coordText3 p).data) =
      [fmtScaled 7 a, fmtScaled 7 b, fmtScaled 2 c] := by
    rw [data_coordText3 p a b c ha hb hc,
      splitOnChar_append ',' _ _ (comma_not_mem_fmtScaled 7 a),
      splitOnChar_append ',' _ _ (comma_not_mem_fmtScaled 7 b),
      splitOnChar_not_mem ',' _ (comma_not_mem_fmtScaled 2 c)]
  rw [parseCoords, hsplit]
  simp only [parseDec_fmtScaled 7 (by norm_num) a, parseDec_fmtScaled 7 (by norm_num) b,
    parseDec_fmtScaled 2 (by norm_num) c, Option.some_bind, Option.pure_def]
  have hlon : (a : ℚ) / 10 ^ 7 = p.lon := by
    rw [← ha]
    field_simp
  have hlat : (b : ℚ) / 10 ^ 7 = p.lat := by
    rw [← hb]
    field_simp
  have halt : (c : ℚ) / 10 ^ 2 = p.alt := by
    rw [← hc]
    field_simp
  rw [hlon, hlat, halt]
  rfl

theorem wptIn_nameElem (i : Nat) : wptIn (nameElem i) = [] := by
  rw [nameElem, wptIn_def, wptInList_nil]
  have : isWpt (Elem.mk (kTag "name") (some ("Waypoint " ++ toString (i + 1))) []) = false := by
    unfold isWpt
    rw [children_mk]
    simp
  rw [this]
  simp

theorem isWpt_mkTemplatePm (tpl : Option Elem) (i : Nat) (p : Point) :
    isWpt (mkTemplatePm tpl i p) = true := by
  rw [mkTemplatePm]
  unfold isWpt
  rw [tag_mk, children_mk, List.any_cons, List.any_cons, pointElem_tag, nameElem, tag_mk]
  have h1 : (kTag "Placemark" == kTag "Placemark") = true := by decide
  have h2 : (kTag "Point" == kTag "Point") = true := by decide
  rw [h1, h2, Bool.true_and]
  simp

theorem wptIn_mkTemplatePm (tpl : Option Elem) (i : Nat) (p : Point)
    (hclean : wptInList (templateCloneChildren tpl) = []) :
    wptIn (mkTemplatePm tpl i p) = [mkTemplatePm tpl i p] := by
  conv_lhs => rw [mkTemplatePm]
  rw [wptIn_def, wptInList_cons, wptIn_nameElem, wptInList_cons, wptIn_pointElem, hclean]
  have := isWpt_mkTemplatePm tpl i p
  rw [mkTemplatePm] at this
  rw [this]
  simp [mkTemplatePm]

theorem mkTemplatePm_tag_ne_point (tpl : Option Elem) (i : Nat) (p : Point) :
    ((mkTemplatePm tpl i p).tag == kTag "Point") = false := by
  rw [mkTemplatePm, tag_mk]
  decide

/-- Core structure of the template.kml rewrite: when a document element
    survives the removal pass and the cloned style children contain no
    waypoint-shaped records, the rewritten document's waypoint records are
    exactly the freshly built placemarks, one per enumerated point. -/
theorem buildTemplate_ok (root : Elem) (points : List Point)
    (hdoc : (locateDocument (stripWpt root)).isSome = true)
    (hclean : wptInList (templateCloneChildren ((placemarksOf root).head?)) = []) :
    placemarksOf (buildTemplate root points) =
      points.enum.map (fun ip => mkTemplatePm ((placemarksOf root).head?) ip.1 ip.2) := by
  set tpl := (placemarksOf root).head? with htpl
  set ns := points.enum.map (fun ip => mkTemplatePm tpl ip.1 ip.2) with hns
  have hns_tag : ∀ n ∈ ns, (n.tag == kTag "Point") = false := by
    intro n hn
    rcases List.mem_map.mp hn with ⟨ip, _, rfl⟩
    exact mkTemplatePm_tag_ne_point tpl ip.1 ip.2
  have hsingle : ∀ n ∈ ns, wptIn n = [n] := by
    intro n hn
    rcases List.mem_map.mp hn with ⟨ip, _, rfl⟩
    exact wptIn_mkTemplatePm tpl ip.1 ip.2 hclean
  have hns_eq : wptInList ns = ns := wptInList_of_singles ns hsingle
  obtain ⟨t, x, cs⟩ := root
  have hstrip : wptInList (stripList cs) = [] := by
    have := strip_children_no_wpt (.mk t x cs)
    rwa [children_mk] at this
  rw [buildTemplate]
  simp only [← htpl, ← hns]
  rw [stripWpt_mk] at hdoc ⊢
  rw [appendAt_mk]
  cases h1 : appendAtList isKmlDoc ns (stripList cs) with
  | some cs' =>
    show wptInList cs' = _
    rw [appendAtList_wpt isKmlDoc ns hns_tag (stripList cs) cs' hstrip h1, hns_eq]
  | none =>
    have hfd1 : findDescList isKmlDoc (stripList cs) = none := by
      have := (appendAt_none_iff isKmlDoc ns (.mk t x (stripList cs))).mp
        (by rw [appendAt_mk, h1])
      rwa [findDesc_mk] at this
    by_cases hkd : isKmlDoc (.mk t x (stripList cs))
    · rw [if_pos hkd, appendChildren_def]
      show wptInList (stripList cs ++ ns) = _
      rw [wptInList_append, hstrip, List.nil_append, hns_eq]
    · rw [if_neg hkd, appendAt_mk]
      cases h2' : appendAtList isPlainDoc ns (stripList cs) with
      | some cs' =>
        show wptInList cs' = _
        rw [appendAtList_wpt isPlainDoc ns hns_tag (stripList cs) cs' hstrip h2', hns_eq]
      | none =>
        exfalso
        have hfd2 : findDescList isPlainDoc (stripList cs) = none := by
          have := (appendAt_none_iff isPlainDoc ns (.mk t x (stripList cs))).mp
            (by rw [appendAt_mk, h2'])
          rwa [findDesc_mk] at this
        rw [locateDocument, findDesc_mk, hfd1, if_neg hkd, findDesc_mk, hfd2] at hdoc
        exact Bool.false_ne_true hdoc


/-! ## Claims -/

/-- C1: for every valid input (a seed document with at least one
    waypoint-shaped record whose document element survives the removal
    pass and whose cloned template children carry no nested waypoint
    records, and a point sequence of length N >= 2), the rewrite succeeds
    and the route container of the flight-parameter document contains
    exactly N waypoint-shaped records, the i-th of which (in document
    order) carries the coordinate text of the i-th input point. -/
theorem C1_route_records_count_and_order (root : Elem) (points : List Point)
    (hpm : (placemarksOf root).isEmpty = false)
    (h2 : 2 ≤ points.length)
    (hdoc : (locateDocument (stripWpt root)).isSome = true)
    (hclean : wptInList (waylineCloneChildren ((placemarksOf root).head?)) = []) :
    ∃ out, buildWaylines root points = .ok out ∧
      (placemarksOf out).length = points.length ∧
      ∀ (i : Nat) (p : Point), points[i]? = some p →
        ∃ r, (placemarksOf out)[i]? = some r ∧ coordTextOf r = some (coordText3 p) := by
  obtain ⟨ out, hout, hmap ⟩ := buildWaylines_ok root points h2 hdoc hclean
  refine ⟨ out, hout, by rw [hmap, List.length_map], ?_ ⟩
  intro i p hp
  refine ⟨ mkWaylinePm ((placemarksOf root).head?) p, ?_, coordTextOf_mkWaylinePm _ p ⟩
  rw [hmap, List.getElem?_map, hp]
  rfl

/-- C1 witness: the sample seed document and two points satisfy every
    hypothesis, and the conclusion holds there. -/
theorem C1_witness :
    (placemarksOf sampleRoot).isEmpty = false ∧ 2 ≤ samplePoints.length ∧
    (locateDocument (stripWpt sampleRoot)).isSome = true ∧
    wptInList (waylineCloneChildren ((placemarksOf sampleRoot).head?)) = [] ∧
    (∃ out, buildWaylines sampleRoot samplePoints = .ok out ∧
      (placemarksOf out).length = samplePoints.length ∧
      ∀ (i : Nat) (p : Point), samplePoints[i]? = some p →
        ∃ r, (placemarksOf out)[i]? = some r ∧ coordTextOf r = some (coordText3 p)) :=
  ⟨ rfl, by decide, rfl, rfl,
    C1_route_records_count_and_order sampleRoot samplePoints rfl (by decide) rfl rfl ⟩

/-- C3 counterexample: in the sample seed document the first and last
    waypoint records differ structurally; the regenerated records carry
    the non-Point children of the FIRST record (index, executeHeight),
    not those of the last record (useGlobalHeight), refuting the claim
    that the last record is the template. -/
theorem C3_counterexample :
    ((buildWaylines sampleRoot samplePoints).toOption.bind
        (fun out => (placemarksOf out)[0]?)).map (fun r => r.children.map Elem.tag) =
      some [kTag "Point", wTag "index", wTag "executeHeight"] ∧
    ((placemarksOf sampleRoot).getLast?).map (fun r => r.children.map Elem.tag) =
      some [kTag "Point", wTag "useGlobalHeight"] ∧
    wTag "index" ∉ [kTag "Point", wTag "useGlobalHeight"] := by
  refine ⟨ rfl, rfl, by decide ⟩

/-- C3 (corrected): the Mission Rewriter uses the FIRST waypoint-shaped
    record (placemarks[0]) as the template; every regenerated record is
    the fresh Point/coordinates pair followed by the first record's
    non-Point children. -/
theorem C3_template_is_first_record (root : Elem) (points : List Point)
    (tpl0 : Elem) (rest : List Elem)
    (hpm : placemarksOf root = tpl0 :: rest)
    (h2 : 2 ≤ points.length)
    (hdoc : (locateDocument (stripWpt root)).isSome = true)
    (hclean : wptInList (tpl0.children.filter (fun c => !pyEndsWith c.tag "Point")) = []) :
    ∃ out, buildWaylines root points = .ok out ∧
      ∀ (i : Nat) (p : Point), points[i]? = some p →
        (placemarksOf out)[i]? =
          some (Elem.mk (kTag "Placemark") none
            (pointElem p :: tpl0.children.filter (fun c => !pyEndsWith c.tag "Point"))) := by
  have hhead : (placemarksOf root).head? = some tpl0 := by rw [hpm]; rfl
  have hclean2 : wptInList (waylineCloneChildren ((placemarksOf root).head?)) = [] := by
    rw [hhead]
    exact hclean
  obtain ⟨ out, hout, hmap ⟩ := buildWaylines_ok root points h2 hdoc hclean2
  refine ⟨ out, hout, ?_ ⟩
  intro i p hp
  rw [hmap, List.getElem?_map, hp, hhead]
  rfl

/-- C3 witness: the corrected statement holds at the sample input, whose
    first record is seedPm1. -/
theorem C3_witness :
    placemarksOf sampleRoot = seedPm1 :: [seedPm2] ∧ 2 ≤ samplePoints.length ∧
    (locateDocument (stripWpt sampleRoot)).isSome = true ∧
    wptInList (seedPm1.children.filter (fun c => !pyEndsWith c.tag "Point")) = [] ∧
    (∃ out, buildWaylines sampleRoot samplePoints = .ok out ∧
      ∀ (i : Nat) (p : Point), samplePoints[i]? = some p →
        (placemarksOf out)[i]? =
          some (Elem.mk (kTag "Placemark") none
            (pointElem p :: seedPm1.children.filter (fun c => !pyEndsWith c.tag "Point")))) :=
  ⟨ rfl, by decide, rfl, rfl,
    C3_template_is_first_record sampleRoot samplePoints seedPm1 [seedPm2] rfl (by decide) rfl rfl ⟩

/-- C4 counterexample: a seed document whose route container holds zero
    waypoint-shaped records does NOT make the conversion fail — the
    rewrite succeeds (and an output archive is produced). -/
theorem C4_counterexample :
    placemarksOf noPmRoot = [] ∧ (buildWaylines noPmRoot samplePoints).isOk = true :=
  ⟨ rfl, rfl ⟩

/-- C4 (corrected): with zero existing waypoint-shaped records the
    conversion still succeeds; no NoTemplateRecordError exists in the
    code; the regenerated records are bare Point/coordinates placemarks
    (no template children cloned). -/
theorem C4_no_template_succeeds (root : Elem) (points : List Point)
    (hpm : placemarksOf root = [])
    (h2 : 2 ≤ points.length)
    (hdoc : (locateDocument (stripWpt root)).isSome = true) :
    ∃ out, buildWaylines root points = .ok out ∧
      placemarksOf out =
        points.map (fun p => Elem.mk (kTag "Placemark") none [pointElem p]) := by
  have hclean : wptInList (waylineCloneChildren ((placemarksOf root).head?)) = [] := by
    rw [hpm]
    rfl
  obtain ⟨ out, hout, hmap ⟩ := buildWaylines_ok root points h2 hdoc hclean
  refine ⟨ out, hout, ?_ ⟩
  rw [hmap, hpm]
  rfl

/-- C4 witness: the corrected statement holds at the placemark-free seed
    document. -/
theorem C4_witness :
    placemarksOf noPmRoot = [] ∧ 2 ≤ samplePoints.length ∧
    (locateDocument (stripWpt noPmRoot)).isSome = true ∧
    (∃ out, buildWaylines noPmRoot samplePoints = .ok out ∧
      placemarksOf out =
        samplePoints.map (fun p => Elem.mk (kTag "Placemark") none [pointElem p])) :=
  ⟨ rfl, by decide, rfl,
    C4_no_template_succeeds noPmRoot samplePoints rfl (by decide) rfl ⟩


/-- C2 counterexample: in the flight-parameter dialect the regenerated
    record's coordinate text is the 3D string with the altitude inline
    ("10.1234567,20.7654321,45.50"), not the claimed 2D string, and the
    execution-height field is not set to the point's altitude: it keeps
    the template's verbatim text "99.00". -/
theorem C2_counterexample :
    ((buildWaylines sampleRoot cexPoints).toOption.bind
        (fun out => (placemarksOf out)[0]?)).bind coordTextOf =
      some "10.1234567,20.7654321,45.50" ∧
    ("10.1234567,20.7654321,45.50" : String) ≠ "10.1234567,20.7654321" ∧
    ((buildWaylines sampleRoot cexPoints).toOption.bind
        (fun out => (placemarksOf out)[0]?)).bind (childTextByTag (wTag "executeHeight")) =
      some "99.00" ∧
    ("99.00" : String) ≠ "45.50" := by
  have h0 : coordText3 ⟨ 10.1234567, 20.7654321, 45.5 ⟩ = "10.1234567,20.7654321,45.50" := by
    rw [coordText3_eval ⟨ 10.1234567, 20.7654321, 45.5 ⟩ 101234567 207654321 4550
      (by norm_num) (by norm_num) (by norm_num)]
    decide
  refine ⟨ ?_, by decide, rfl, by decide ⟩
  have h1 : ((buildWaylines sampleRoot cexPoints).toOption.bind
      (fun out => (placemarksOf out)[0]?)).bind coordTextOf =
      some (coordText3 ⟨ 10.1234567, 20.7654321, 45.5 ⟩) := rfl
  rw [h1, h0]

/-- C2 (corrected): each regenerated flight-parameter record's coordinate
    text is the 3D string "{lon:.7f},{lat:.7f},{alt:.2f}" with the
    altitude inline; no execution-height field is written (the non-Point
    children are verbatim clones of the template's); re-extracting
    (lon, lat, alt) from the coordinate text alone reproduces every input
    point representable at 7 decimal places of lon/lat and 2 of altitude. -/
theorem C2_coords_3d_roundtrip (root : Elem) (points : List Point)
    (h2 : 2 ≤ points.length)
    (hdoc : (locateDocument (stripWpt root)).isSome = true)
    (hclean : wptInList (waylineCloneChildren ((placemarksOf root).head?)) = [])
    (hrep : ∀ p ∈ points, ∃ a b c : ℤ, p.lon * 10 ^ 7 = (a : ℚ) ∧
      p.lat * 10 ^ 7 = (b : ℚ) ∧ p.alt * 10 ^ 2 = (c : ℚ)) :
    ∃ out, buildWaylines root points = .ok out ∧
      ∀ (i : Nat) (p : Point), points[i]? = some p →
        ∃ r, (placemarksOf out)[i]? = some r ∧
          coordTextOf r = some (coordText3 p) ∧
          (coordTextOf r).bind parseCoords = some (p.lon, p.lat, p.alt) ∧
          r.children.tail = waylineCloneChildren ((placemarksOf root).head?) := by
  obtain ⟨ out, hout, hmap ⟩ := buildWaylines_ok root points h2 hdoc hclean
  refine ⟨ out, hout, ?_ ⟩
  intro i p hp
  have hmem : p ∈ points := by
    have := List.getElem?_eq_some.mp hp
    rcases this with ⟨ hlt, heq ⟩
    exact heq ▸ List.getElem_mem hlt
  obtain ⟨ a, b, c, ha, hb, hc ⟩ := hrep p hmem
  refine ⟨ mkWaylinePm ((placemarksOf root).head?) p,
    by rw [hmap, List.getElem?_map, hp]; rfl,
    coordTextOf_mkWaylinePm _ p, ?_, mkWaylinePm_children_tail _ p ⟩
  rw [coordTextOf_mkWaylinePm]
  show parseCoords (coordText3 p) = some (p.lon, p.lat, p.alt)
  exact parseCoords_coordText3 p a b c ha hb hc

/-- C2 witness: the corrected statement holds at the sample seed document
    with the decimal points (10.1234567, 20.7654321, 45.5) and
    (10.2, 20.8, 30). -/
theorem C2_witness :
    2 ≤ cexPoints.length ∧
    (locateDocument (stripWpt sampleRoot)).isSome = true ∧
    wptInList (waylineCloneChildren ((placemarksOf sampleRoot).head?)) = [] ∧
    (∃ out, buildWaylines sampleRoot cexPoints = .ok out ∧
      ∀ (i : Nat) (p : Point), cexPoints[i]? = some p →
        ∃ r, (placemarksOf out)[i]? = some r ∧
          coordTextOf r = some (coordText3 p) ∧
          (coordTextOf r).bind parseCoords = some (p.lon, p.lat, p.alt) ∧
          r.children.tail = waylineCloneChildren ((placemarksOf sampleRoot).head?)) :=
  ⟨ by decide, rfl, rfl,
    C2_coords_3d_roundtrip sampleRoot cexPoints (by decide) rfl rfl (by
      intro p hp
      rw [cexPoints] at hp
      rcases List.mem_cons.mp hp with rfl | hp2
      . exact ⟨ 101234567, 207654321, 4550, by norm_num, by norm_num, by norm_num ⟩
      rcases List.mem_cons.mp hp2 with rfl | hp3
      . exact ⟨ 102000000, 208000000, 3000, by norm_num, by norm_num, by norm_num ⟩
      . exact absurd hp3 (List.not_mem_nil p)) ⟩

/-- C5 counterexample: the regenerated flight-parameter records carry no
    freshly stamped index: record 1 keeps the template's verbatim index
    text "0" instead of the claimed "1". -/
theorem C5_counterexample :
    ((buildWaylines sampleRoot samplePoints).toOption.bind
        (fun out => (placemarksOf out)[1]?)).bind (childTextByTag (wTag "index")) =
      some "0" ∧
    some "0" ≠ some (toString (1 : Nat)) :=
  ⟨ rfl, by decide ⟩

/-- C5 (corrected): the rewrite stamps no per-record index field in
    either dialect.  In the flight-parameter dialect every regenerated
    record's non-Point children equal the template's cloned children
    (identical for all i, so any index field is a verbatim copy); in the
    visual dialect record i instead carries a name element with text
    "Waypoint {i+1}" (one-based). -/
theorem C5_no_index_restamp_visual_name (root troot : Elem) (points : List Point)
    (h2 : 2 ≤ points.length)
    (hdoc : (locateDocument (stripWpt root)).isSome = true)
    (hclean : wptInList (waylineCloneChildren ((placemarksOf root).head?)) = [])
    (hdocT : (locateDocument (stripWpt troot)).isSome = true)
    (hcleanT : wptInList (templateCloneChildren ((placemarksOf troot).head?)) = []) :
    (∃ out, buildWaylines root points = .ok out ∧
      ∀ (i : Nat) (p : Point), points[i]? = some p →
        ∃ r, (placemarksOf out)[i]? = some r ∧
          r.children.tail = waylineCloneChildren ((placemarksOf root).head?)) ∧
    (∀ (i : Nat) (p : Point), points[i]? = some p →
      ∃ r, (placemarksOf (buildTemplate troot points))[i]? = some r ∧
        r.children.head? = some (nameElem i) ∧
        (nameElem i).text = some ("Waypoint " ++ toString (i + 1))) := by
  constructor
  . obtain ⟨ out, hout, hmap ⟩ := buildWaylines_ok root points h2 hdoc hclean
    refine ⟨ out, hout, ?_ ⟩
    intro i p hp
    exact ⟨ mkWaylinePm ((placemarksOf root).head?) p,
      by rw [hmap, List.getElem?_map, hp]; rfl,
      mkWaylinePm_children_tail _ p ⟩
  . intro i p hp
    have hmapT := buildTemplate_ok troot points hdocT hcleanT
    refine ⟨ mkTemplatePm ((placemarksOf troot).head?) i p, ?_,
      mkTemplatePm_children_head _ i p, nameElem_text i ⟩
    rw [hmapT, List.getElem?_map, List.getElem?_enum, hp]
    rfl

/-- C5 witness: the corrected statement holds with the sample seed
    document serving as both dialects' seed. -/
theorem C5_witness :
    2 ≤ samplePoints.length ∧
    (locateDocument (stripWpt sampleRoot)).isSome = true ∧
    wptInList (waylineCloneChildren ((placemarksOf sampleRoot).head?)) = [] ∧
    wptInList (templateCloneChildren ((placemarksOf sampleRoot).head?)) = [] ∧
    ((∃ out, buildWaylines sampleRoot samplePoints = .ok out ∧
      ∀ (i : Nat) (p : Point), samplePoints[i]? = some p →
        ∃ r, (placemarksOf out)[i]? = some r ∧
          r.children.tail = waylineCloneChildren ((placemarksOf sampleRoot).head?)) ∧
    (∀ (i : Nat) (p : Point), samplePoints[i]? = some p →
      ∃ r, (placemarksOf (buildTemplate sampleRoot samplePoints))[i]? = some r ∧
        r.children.head? = some (nameElem i) ∧
        (nameElem i).text = some ("Waypoint " ++ toString (i + 1)))) :=
  ⟨ by decide, rfl, rfl, rfl,
    C5_no_index_restamp_visual_name sampleRoot sampleRoot samplePoints
      (by decide) rfl rfl rfl rfl ⟩


/-- C6: when an altitude override V is supplied, every extracted point's
    altitude equals V, regardless of any per-point altitude property in
    the input document. -/
theorem C6_altitude_override (gj : GeoJson) (V : ℚ) (pts : List Point)
    (h : points_from_geojson gj (some V) = .ok pts) :
    ∀ p ∈ pts, p.alt = V :=
  pointsFromFeatures_override V gj.features pts h

/-- C6 witness: the mixed input with per-point altitude 9 and override 7
    extracts two points whose altitudes are both 7. -/
theorem C6_witness :
    points_from_geojson mixedGeoJson (some 7) = .ok [⟨ 3, 4, 7 ⟩, ⟨ 5, 6, 7 ⟩] ∧
    ∀ p ∈ ([⟨ 3, 4, 7 ⟩, ⟨ 5, 6, 7 ⟩] : List Point), p.alt = 7 :=
  ⟨ rfl, C6_altitude_override mixedGeoJson 7 [⟨ 3, 4, 7 ⟩, ⟨ 5, 6, 7 ⟩] rfl ⟩

/-- C7: the scenario input extracts exactly
    [(10.1234567, 20.7654321, 45.5), (10.2, 20.8, 30.0)]; in general the
    extractor silently skips non-point geometries and substitutes the
    fixed default altitude 30.0 when the altitude property is missing. -/
theorem C7_point_extraction :
    points_from_geojson scenarioGeoJson none =
      .ok [⟨ 10.1234567, 20.7654321, 45.5 ⟩, ⟨ 10.2, 20.8, 30 ⟩] ∧
    (∀ (f : Feature) (rest : List Feature) (ov : Option ℚ),
      (pyLower f.geomType == "point") = false →
      pointsFromFeatures (f :: rest) ov = pointsFromFeatures rest ov) ∧
    (∀ (f : Feature) (rest : List Feature) (lon lat : ℚ) (tl : List ℚ),
      (pyLower f.geomType == "point") = true → f.coords = lon :: lat :: tl →
      f.altProp = none →
      pointsFromFeatures (f :: rest) none =
        (pointsFromFeatures rest none).map
          (fun pts => ⟨ lon, lat, 30 ⟩ :: pts)) := by
  refine ⟨ rfl, pointsFromFeatures_skip, ?_ ⟩
  intro f rest lon lat tl hty hco halt
  rw [pointsFromFeatures_point f rest none lon lat tl hty hco]
  have h30 : featureAlt f none = 30 := by
    simp [featureAlt, halt]
  rw [h30]

/-- C7 witness: the skipping law applied to a concrete non-point feature. -/
theorem C7_witness :
    ((pyLower (Feature.mk "LineString" [1, 2] none).geomType == "point") = false) ∧
    pointsFromFeatures [Feature.mk "LineString" [1, 2] none] none =
      pointsFromFeatures [] none :=
  ⟨ by decide,
     C7_point_extraction.2.1 (Feature.mk "LineString" [1, 2] none) [] none (by decide) ⟩

theorem writeEntry_name (wpmlName : String) (kmlName : Option String)
    (wpmlBytes : List Nat) (templateBytes : Option (List Nat)) (e : ZipEntry) :
    (writeEntry wpmlName kmlName wpmlBytes templateBytes e).name = e.name := by
  rw [writeEntry.eq_def]
  by_cases h1 : e.name = wpmlName
  . rw [if_pos h1]
  . rw [if_neg h1]
    cases kmlName with
    | none => rfl
    | some k =>
      cases templateBytes with
      | none => rfl
      | some tb =>
        show (if e.name = k then ({ e with content := tb } : ZipEntry) else e).name = e.name
        by_cases h2 : e.name = k
        . rw [if_pos h2]
        . rw [if_neg h2]

theorem writeEntry_skip (wpmlName : String) (kmlName : Option String)
    (wpmlBytes : List Nat) (templateBytes : Option (List Nat)) (e : ZipEntry)
    (h1 : e.name ≠ wpmlName) (h2 : ∀ k, kmlName = some k → e.name ≠ k) :
    writeEntry wpmlName kmlName wpmlBytes templateBytes e = e := by
  rw [writeEntry.eq_def, if_neg h1]
  cases kmlName with
  | none => rfl
  | some k =>
    cases templateBytes with
    | none => rfl
    | some tb =>
      show (if e.name = k then ({ e with content := tb } : ZipEntry) else e) = e
      rw [if_neg (h2 k rfl)]

/-- C8: the output archive preserves every entry position and name, and
    any entry whose name is neither the waylines member nor the rewritten
    template member keeps its exact content bytes. -/
theorem C8_frame_preservation (entries : List ZipEntry) (wpmlName : String)
    (kmlName : Option String) (wpmlBytes : List Nat)
    (templateBytes : Option (List Nat)) :
    (∀ (i : Nat) (e : ZipEntry), entries[i]? = some e →
      ((writeOutput entries wpmlName kmlName wpmlBytes templateBytes)[i]?).map
        ZipEntry.name = some e.name) ∧
    (∀ (i : Nat) (e : ZipEntry), entries[i]? = some e →
      e.name ≠ wpmlName → (∀ k, kmlName = some k → e.name ≠ k) →
      (writeOutput entries wpmlName kmlName wpmlBytes templateBytes)[i]? = some e) := by
  constructor
  . intro i e he
    rw [writeOutput, List.getElem?_map, he, Option.map_map]
    show some (writeEntry wpmlName kmlName wpmlBytes templateBytes e).name = _
    rw [writeEntry_name]
  . intro i e he h1 h2
    rw [writeOutput, List.getElem?_map, he]
    show some (writeEntry wpmlName kmlName wpmlBytes templateBytes e) = some e
    rw [writeEntry_skip wpmlName kmlName wpmlBytes templateBytes e h1 h2]

/-- C8 witness: the auxiliary photo entry of the sample archive passes
    through with identical name and bytes. -/
theorem C8_witness :
    sampleEntries[2]? = some ⟨ "wpmz/res/photo.jpg", [7, 8, 9] ⟩ ∧
    (writeOutput sampleEntries "wpmz/waylines.wpml" (some "wpmz/template.kml")
        [9, 9] (some [8, 8]))[2]? = some ⟨ "wpmz/res/photo.jpg", [7, 8, 9] ⟩ :=
  ⟨ rfl,
    (C8_frame_preservation sampleEntries "wpmz/waylines.wpml"
        (some "wpmz/template.kml") [9, 9] (some [8, 8])).2 2
      ⟨ "wpmz/res/photo.jpg", [7, 8, 9] ⟩ rfl (by decide)
      (by
        intro k hk
        injection hk with h2
        rw [← h2]
        decide) ⟩

/-- C9 counterexample: a conversion with 1001 points succeeds; no
    capacity error exists in the code. -/
theorem C9_counterexample : (buildWaylines sampleRoot pts1001).isOk = true := by
  obtain ⟨ out, hout, _ ⟩ := buildWaylines_ok sampleRoot pts1001
    (by rw [pts1001, List.length_replicate]; omega) rfl rfl
  rw [hout]
  rfl

/-- C9 (corrected): one usable point aborts the conversion with the
    2-point-minimum error and no output; any count of at least 2 — 1000
    and 1001 alike — succeeds: the code enforces no 1000-point maximum. -/
theorem C9_point_count_boundaries :
    (∀ (root : Elem) (p : Point), buildWaylines root [p] =
      .error "Need at least 2 points in the GeoJSON file to create a valid waypoint mission.") ∧
    (∀ (root : Elem) (points : List Point), 2 ≤ points.length →
      (locateDocument (stripWpt root)).isSome = true →
      wptInList (waylineCloneChildren ((placemarksOf root).head?)) = [] →
      (buildWaylines root points).isOk = true) := by
  constructor
  . intro root p
    rw [buildWaylines, if_pos (by rw [List.length_singleton]; omega)]
  . intro root points h2 hdoc hclean
    obtain ⟨ out, hout, _ ⟩ := buildWaylines_ok root points h2 hdoc hclean
    rw [hout]
    rfl

/-- C9 witness: exactly one point fails with the minimum-points error;
    exactly 1000 points succeed. -/
theorem C9_witness :
    buildWaylines sampleRoot [⟨ 1, 2, 3 ⟩] =
      .error "Need at least 2 points in the GeoJSON file to create a valid waypoint mission." ∧
    (buildWaylines sampleRoot pts1000).isOk = true :=
  ⟨ C9_point_count_boundaries.1 sampleRoot ⟨ 1, 2, 3 ⟩,
    C9_point_count_boundaries.2 sampleRoot pts1000
      (by rw [pts1000, List.length_replicate]; omega) rfl rfl ⟩

/-- C10: when the visual-template document has no Document element
    (neither a namespaced descendant, nor the root, nor a plain-tag
    descendant), the conversion still succeeds with no error: the
    serialized template tree is exactly the stripped tree — all original
    waypoint placemarks removed and no new ones added. -/
theorem C10_no_document_template (root : Elem) (points : List Point)
    (hnodoc : locateDocument root = none) :
    buildTemplate root points = stripWpt root ∧
    placemarksOf (buildTemplate root points) = [] := by
  rcases locateDocument_none_parts root hnodoc with ⟨ h1, h2, h3 ⟩
  have hs1 : findDesc isKmlDoc (stripWpt root) = none :=
    findDesc_stripWpt_none isKmlDoc isKmlDoc_stripWpt root h1
  have hs3 : findDesc isPlainDoc (stripWpt root) = none :=
    findDesc_stripWpt_none isPlainDoc isPlainDoc_stripWpt root h3
  have hs2 : isKmlDoc (stripWpt root) = false := by
    rw [isKmlDoc_stripWpt]
    exact h2
  have ha1 : appendAt isKmlDoc
      ((points.enum).map (fun ip => mkTemplatePm ((placemarksOf root).head?) ip.1 ip.2))
      (stripWpt root) = none :=
    (appendAt_none_iff _ _ (stripWpt root)).mpr hs1
  have ha3 : appendAt isPlainDoc
      ((points.enum).map (fun ip => mkTemplatePm ((placemarksOf root).head?) ip.1 ip.2))
      (stripWpt root) = none :=
    (appendAt_none_iff _ _ (stripWpt root)).mpr hs3
  have hb : buildTemplate root points = stripWpt root := by
    rw [buildTemplate]
    simp only [ha1, ha3, hs2, Bool.false_eq_true, if_false]
  exact ⟨ hb, by rw [hb]; exact placemarksOf_stripWpt root ⟩

/-- C10 witness: the Document-free template input converts to its own
    stripped tree with zero waypoint records. -/
theorem C10_witness :
    locateDocument noDocRoot = none ∧
    buildTemplate noDocRoot samplePoints = stripWpt noDocRoot ∧
    placemarksOf (buildTemplate noDocRoot samplePoints) = [] :=
  ⟨ rfl, (C10_no_document_template noDocRoot samplePoints rfl).1,
    (C10_no_document_template noDocRoot samplePoints rfl).2 ⟩

end QgisDji
